import Mathlib

/-!
Verification model of the signup-manager Secure Record & Workflow Engine
(backend/app).  The SQLAlchemy session is modelled as a committed database
plus an in-session working copy; `commit` either publishes the working copy
atomically or fails (storage failure), in which case the raised exception
propagates out of the operation and the transaction is rolled back.
-/

/-- Workflow status of a member record (MemberStatus in app/models/member.py). -/
inductive MemberStatus : Type
  | PENDING
  | ASSIGNED
  | VETTED
  | REJECTED
deriving DecidableEq, Repr

/-- One row of the audit_logs table (app/models/audit_log.py): nullable actor
(user_id), nullable subject record (member_id), action code and free-text
detail.  The timestamp column plays no role in any claim and is omitted. -/
structure AuditLog where
  user_id : Option Nat
  member_id : Option Nat
  action : String
  details : String
deriving DecidableEq, Repr

/-- A member record (app/models/member.py) restricted to the fields the engine
reads or writes: identity, workflow status, assigned vetter, timestamps and
the email blind index.  PII columns other than the (decrypted views of) first
and last name do not influence any claim; encryption of the PII columns is
modelled separately by EncryptionService. -/
structure Member where
  id : Nat
  first_name : String
  last_name : String
  email_blind_index : String
  status : MemberStatus
  assigned_vetter_id : Option Nat
  created_at : Int
  updated_at : Int
deriving DecidableEq, Repr

/-- The relevant tables of the database. -/
structure DB where
  members : List Member
  audit : List AuditLog
deriving DecidableEq, Repr

/-- Modelled from the spec: app/models/user.py is not part of the sources, but
its two role values SUPER_ADMIN and VETTER are fixed by their uses in
app/dependencies.py and app/routers. -/
inductive UserRole : Type
  | SUPER_ADMIN
  | VETTER
deriving DecidableEq, Repr

/-- Modelled from the spec: the user fields the engine operations read
(id, role, username for audit details). -/
structure User where
  id : Nat
  username : String
  role : UserRole
deriving DecidableEq, Repr

/-- A SQLAlchemy session: last committed database, in-session working copy,
and a schedule of outcomes for the upcoming commits (true = success; past the
end of the list every commit succeeds). -/
structure Sess where
  committed : DB
  working : DB
  sched : List Bool
deriving DecidableEq, Repr

/-- Errors surfaced by the engine operations: HTTP 404, 403, 409 and a
storage failure raised by a failing commit. -/
inductive ApiErr : Type
  | notFound
  | forbidden
  | conflict
  | storage
deriving DecidableEq, Repr

/-- Session.commit(): on success the working copy becomes durable; on a
storage failure the exception propagates (no code in the engine catches it)
and the transaction is rolled back, so the error carries the database as
last committed. -/
def tryCommit (s : Sess) : Except (ApiErr × DB) Sess :=
  match s.sched with
  | [] => .ok ⟨s.working, s.working, []⟩
  | b :: rest =>
      if b then .ok ⟨s.working, s.working, rest⟩
      else .error (.storage, s.committed)

/-- AuditService.log_action (app/services/audit.py): build the audit row, add
it to the session and immediately commit. -/
def log_action (s : Sess) (user_id member_id : Option Nat)
    (action details : String) : Except (ApiErr × DB) Sess :=
  tryCommit { s with
    working := { s.working with
      audit := s.working.audit ++ [⟨user_id, member_id, action, details⟩] } }

/-- Mutation of the session object with the given primary key, as performed by
attribute assignment on a row loaded in the session. -/
def updMember (db : DB) (mid : Nat) (f : Member → Member) : DB :=
  { db with members := db.members.map (fun m => if m.id = mid then f m else m) }

/-- Query by primary key: query(Member).filter(Member.id == member_id).first(). -/
def findMember (db : DB) (mid : Nat) : Option Member :=
  db.members.find? (fun m => decide (m.id = mid))

/-- Stale assignment threshold (app/routers/auth.py): STALE_ASSIGNMENT_DAYS = 7,
in seconds of utcnow arithmetic. -/
def staleSeconds : Int := 7 * 86400

/-- Filter of the reclamation query: status == ASSIGNED and updated_at older
than utcnow() - timedelta(days=7). -/
def isStale (now : Int) (m : Member) : Bool :=
  decide (m.status = .ASSIGNED) && decide (m.updated_at < now - staleSeconds)

/-- Python rendering of an Optional[int] inside an f-string. -/
def optStr : Option Nat → String
  | none => "None"
  | some n => toString n

/-- Python rendering of a MemberStatus value inside an f-string (str-mixin
enum formats as its value). -/
def statusStr : MemberStatus → String
  | .PENDING => "PENDING"
  | .ASSIGNED => "ASSIGNED"
  | .VETTED => "VETTED"
  | .REJECTED => "REJECTED"

/-- Reset applied to each stale member: status back to PENDING, assignment
cleared (updated_at refreshed by the onupdate hook at the flush). -/
def resetMember (now : Int) (m : Member) : Member :=
  { m with status := .PENDING, assigned_vetter_id := none, updated_at := now }

/-- Audit row written for one reclaimed member (m is the pre-reset snapshot,
so the detail names the previous vetter). -/
def reclaimEntry (m : Member) : AuditLog :=
  ⟨none, some m.id, "ASSIGNMENT_RECLAIMED",
    "Assignment reclaimed from vetter " ++ optStr m.assigned_vetter_id ++
    " after 7 days of inactivity"⟩

/-- Loop body of reclaim_stale_assignments: the stale list is a snapshot taken
by the query before the loop; each iteration resets one member and logs one
ASSIGNMENT_RECLAIMED entry (log_action commits). -/
def reclaimLoop (now : Int) (s : Sess) (count : Nat) :
    List Member → Except (ApiErr × DB) (Nat × Sess)
  | [] => .ok (count, s)
  | m :: rest =>
      let s1 := { s with working := updMember s.working m.id (resetMember now) }
      match log_action s1 (reclaimEntry m).user_id (reclaimEntry m).member_id
          (reclaimEntry m).action (reclaimEntry m).details with
      | .error e => .error e
      | .ok s2 => reclaimLoop now s2 (count + 1) rest

/-- reclaim_stale_assignments (app/routers/auth.py lines 18-51). -/
def reclaim_stale_assignments (now : Int) (s : Sess) :
    Except (ApiErr × DB) (Nat × Sess) :=
  let stale := s.working.members.filter (isStale now)
  match reclaimLoop now s 0 stale with
  | .error e => .error e
  | .ok (count, s1) =>
      if 0 < count then
        match tryCommit s1 with
        | .error e => .error e
        | .ok s2 => .ok (count, s2)
      else .ok (count, s1)

/-- Contract of the pending-selection query
query(Member).filter(status == PENDING).order_by(created_at.asc()).first():
the result is a PENDING member of the table with minimal creation time, and
none exactly when no PENDING member exists.  SQL fixes no order among rows
with equal created_at, so the engine is parametrized by any selector
satisfying this contract. -/
def SelSpec (sel : List Member → Option Member) : Prop :=
  ∀ ms : List Member,
    (∀ m, sel ms = some m → m ∈ ms ∧ m.status = .PENDING ∧
      ∀ m' ∈ ms, m'.status = .PENDING → m.created_at ≤ m'.created_at) ∧
    (sel ms = none → ∀ m ∈ ms, m.status ≠ .PENDING)

/-- Write applied to the selected member: assigned to the requesting vetter. -/
def assignMember (now : Int) (vetter_id : Nat) (m : Member) : Member :=
  { m with
    assigned_vetter_id := some vetter_id,
    status := .ASSIGNED,
    updated_at := now }

/-- Audit row written when a member is auto-assigned. -/
def autoAssignEntry (vetter_id mid : Nat) : AuditLog :=
  ⟨some vetter_id, some mid, "AUTO_ASSIGNED", "Automatically assigned to vetter"⟩

/-- Tail of auto_assign_next_member after reclamation and the optional
STALE_CHECK entry (app/routers/auth.py lines 72-93): run the pending SELECT,
claim the selected member for the vetter, log AUTO_ASSIGNED (log_action
commits) and commit. -/
def autoAssignClaim (sel : List Member → Option Member) (now : Int)
    (vetter_id : Nat) (s2 : Sess) : Except (ApiErr × DB) (Option Nat × Sess) :=
  match sel s2.working.members with
  | none => .ok (none, s2)
  | some m =>
      let s3 := { s2 with
        working := updMember s2.working m.id (assignMember now vetter_id) }
      match log_action s3 (autoAssignEntry vetter_id m.id).user_id
          (autoAssignEntry vetter_id m.id).member_id
          (autoAssignEntry vetter_id m.id).action
          (autoAssignEntry vetter_id m.id).details with
      | .error e => .error e
      | .ok s4 =>
          match tryCommit s4 with
          | .error e => .error e
          | .ok s5 => .ok (some m.id, s5)

/-- The STALE_CHECK summary entry logged when reclamation found work. -/
def staleCheckEntry (vetter_id : Nat) (reclaimed : Nat) : AuditLog :=
  ⟨some vetter_id, none, "STALE_CHECK",
    "Reclaimed " ++ toString reclaimed ++
      " stale assignment(s) during auto-assignment"⟩

/-- auto_assign_next_member (app/routers/auth.py lines 54-93), parametrized by
the storage layer's pending-record selector.  Returns the id of the member
assigned, or none if no pending member exists. -/
def auto_assign_next_member (sel : List Member → Option Member) (now : Int)
    (s : Sess) (vetter_id : Nat) : Except (ApiErr × DB) (Option Nat × Sess) :=
  match reclaim_stale_assignments now s with
  | .error e => .error e
  | .ok (reclaimed, s1) =>
      if 0 < reclaimed then
        match log_action s1 (staleCheckEntry vetter_id reclaimed).user_id
            (staleCheckEntry vetter_id reclaimed).member_id
            (staleCheckEntry vetter_id reclaimed).action
            (staleCheckEntry vetter_id reclaimed).details with
        | .error e => .error e
        | .ok s2 => autoAssignClaim sel now vetter_id s2
      else autoAssignClaim sel now vetter_id s1

/-- check_member_access (app/dependencies.py): admins always, vetters only for
members assigned to them. -/
def check_member_access (member : Member) (user : User) : Bool :=
  match user.role with
  | .SUPER_ADMIN => true
  | .VETTER => decide (member.assigned_vetter_id = some user.id)

/-- Audit row written for a status change (old is the pre-update status). -/
def statusChangeEntry (actor mid : Nat) (old new : MemberStatus) : AuditLog :=
  ⟨some actor, some mid, "STATUS_CHANGED",
    "Status changed from " ++ statusStr old ++ " to " ++ statusStr new⟩

/-- update_member_status (app/routers/members.py lines 146-186): look up the
member, check access, set the new status, log STATUS_CHANGED (log_action
commits), run auto-assignment when a vetter completed vetting, final commit. -/
def update_member_status (sel : List Member → Option Member) (now : Int)
    (s : Sess) (current_user : User) (member_id : Nat)
    (upd : Option MemberStatus) : Except (ApiErr × DB) Sess :=
  match findMember s.working member_id with
  | none => .error (.notFound, s.committed)
  | some member =>
      if check_member_access member current_user then
        match upd with
        | none => tryCommit s
        | some st =>
            let s1 := { s with
              working := updMember s.working member_id
                (fun x => { x with status := st, updated_at := now }) }
            match log_action s1 (statusChangeEntry current_user.id member_id member.status st).user_id
                (statusChangeEntry current_user.id member_id member.status st).member_id
                (statusChangeEntry current_user.id member_id member.status st).action
                (statusChangeEntry current_user.id member_id member.status st).details with
            | .error e => .error e
            | .ok s2 =>
                let next : Except (ApiErr × DB) Sess :=
                  if current_user.role = .VETTER ∧ (st = .VETTED ∨ st = .REJECTED) then
                    match auto_assign_next_member sel now s2 current_user.id with
                    | .error e => .error e
                    | .ok (_, s3) => .ok s3
                  else .ok s2
                match next with
                | .error e => .error e
                | .ok s3 => tryCommit s3
      else .error (.forbidden, s.committed)

/-- Audit row written for a sensitive PII read. -/
def viewPIIEntry (user : User) (mid : Nat) : AuditLog :=
  ⟨some user.id, some mid, "VIEWED_PII",
    "User " ++ user.username ++ " viewed PII for member " ++ toString mid⟩

/-- get_member (app/routers/members.py lines 111-141): look up the member,
check access, write one VIEWED_PII audit entry (committed by log_action) and
return the decrypted record. -/
def get_member (s : Sess) (current_user : User) (member_id : Nat) :
    Except (ApiErr × DB) (Member × Sess) :=
  match findMember s.working member_id with
  | none => .error (.notFound, s.committed)
  | some member =>
      if check_member_access member current_user then
        match log_action s (viewPIIEntry current_user member_id).user_id
            (viewPIIEntry current_user member_id).member_id
            (viewPIIEntry current_user member_id).action
            (viewPIIEntry current_user member_id).details with
        | .error e => .error e
        | .ok s1 => .ok (member, s1)
      else .error (.forbidden, s.committed)

/-- Audit row written before a member is deleted (detail uses the decrypted
name fields). -/
def deleteEntry (actor : Nat) (m : Member) : AuditLog :=
  ⟨some actor, some m.id, "MEMBER_DELETED",
    "Admin deleted member " ++ m.first_name ++ " " ++ m.last_name ++
    " (ID: " ++ toString m.id ++ ")"⟩

/-- delete_member (app/routers/members.py lines 282-310): write a
MEMBER_DELETED audit entry (committed immediately by log_action), then
bulk-delete every audit row whose member_id is this member, delete the member
row and commit.  The admin-only gate is the require_admin dependency, outside
this function body. -/
def delete_member (s : Sess) (current_user : User) (member_id : Nat) :
    Except (ApiErr × DB) Sess :=
  match findMember s.working member_id with
  | none => .error (.notFound, s.committed)
  | some member =>
      match log_action s (deleteEntry current_user.id member).user_id
          (deleteEntry current_user.id member).member_id
          (deleteEntry current_user.id member).action
          (deleteEntry current_user.id member).details with
      | .error e => .error e
      | .ok s1 =>
          let w := s1.working
          tryCommit { s1 with working :=
            { members := w.members.filter (fun m => decide (¬ m.id = member_id)),
              audit := w.audit.filter (fun a => decide (¬ a.member_id = some member_id)) } }

/-- Python str.lower(), character by character. -/
def pyLower (s : String) : String := String.mk (s.data.map Char.toLower)

/-- Python str.strip(): drop whitespace from both ends. -/
def pyStrip (s : String) : String :=
  String.mk (((s.data.dropWhile Char.isWhitespace).reverse.dropWhile
    Char.isWhitespace).reverse)

/-- The normalization applied by the blind index: email.lower().strip(). -/
def pyNormalize (e : String) : String := pyStrip (pyLower e)

/-- generate_blind_index (app/services/blind_index.py), parametrized by the
SHA-256 hex digest and the configured salt.  A missing (None) or empty email
is Python-falsy and short-circuits to the empty-string sentinel; only
otherwise is the input normalized (lowercase, strip) and hashed. -/
def generate_blind_index (sha256hex : String → String) (salt : String)
    (email : Option String) : String :=
  match email with
  | none => ""
  | some e => if e = "" then "" else sha256hex (pyNormalize e ++ salt)

/-- Member row created by submit_application: status PENDING, no assignment,
blind index computed from the submitted email. -/
def newMember (id : Nat) (first_name last_name ebi : String) (now : Int) :
    Member :=
  { id := id,
    first_name := first_name,
    last_name := last_name,
    email_blind_index := ebi,
    status := .PENDING,
    assigned_vetter_id := none,
    created_at := now,
    updated_at := now }

/-- Duplicate check and insert of submit_application (app/routers/public.py):
compute the blind index of the submitted email, reject with 409 when a member
with the same blind index exists, otherwise insert the new PENDING record and
commit.  Request-body validation happens upstream of the cited lines and is
out of the modelled scope. -/
def submit_application (sha256hex : String → String) (salt : String)
    (s : Sess) (newId : Nat) (now : Int) (first_name last_name email : String) :
    Except (ApiErr × DB) (Nat × Sess) :=
  let email_index := generate_blind_index sha256hex salt (some email)
  match s.working.members.find? (fun m => decide (m.email_blind_index = email_index)) with
  | some _ => .error (.conflict, s.committed)
  | none =>
      let s1 := { s with working := { s.working with
        members := s.working.members ++
          [newMember newId first_name last_name email_index now] } }
      match tryCommit s1 with
      | .error e => .error e
      | .ok s2 => .ok (newId, s2)

/-- Executable selector materializing the pending query when the storage layer
happens to resolve ties in favor of the earliest-stored row. -/
def firstPendingMin (ms : List Member) : Option Member :=
  (ms.filter (fun m => decide (m.status = .PENDING))).argmin (fun m => m.created_at)

/-- Executable selector materializing the pending query when the storage layer
happens to resolve ties in favor of the latest-stored row.  Both selectors
satisfy SelSpec: the query constrains only the creation time. -/
def lastPendingMin (ms : List Member) : Option Member :=
  (ms.reverse.filter (fun m => decide (m.status = .PENDING))).argmin (fun m => m.created_at)

/-- Write performed by one session that claimed a member inside
auto_assign_next_member: the UPDATE of the row plus the AUTO_ASSIGNED audit
row, as published by the session's commit. -/
def claimWrite (now : Int) (vetter_id mid : Nat) (db : DB) : DB :=
  let db1 := updMember db mid (assignMember now vetter_id)
  { db1 with audit := db1.audit ++ [autoAssignEntry vetter_id mid] }

/-- Interleaved execution of two concurrent request_next calls (the engine's
auto_assign_next_member is a plain read-then-write: no conditional claim, no
row lock, so this interleaving is admitted by the storage model): both
sessions evaluate the pending SELECT against the same committed database
before either UPDATE commits, then the two UPDATE+COMMIT pairs are published
in order.  No member is stale, so reclamation performs no write.  Returns the
member id each worker received and the final committed database. -/
def request_next_race (sel : List Member → Option Member) (now : Int)
    (db : DB) (vetterA vetterB : Nat) : Option Nat × Option Nat × DB :=
  let ra := sel db.members
  let rb := sel db.members
  let db1 := match ra with
    | none => db
    | some m => claimWrite now vetterA m.id db
  let db2 := match rb with
    | none => db1
    | some m => claimWrite now vetterB m.id db1
  (ra.map Member.id, rb.map Member.id, db2)

/-- Parsed shape of the vault file read by VaultManager.unlock (app/vault.py).
missing: no file at the vault path (FileNotFoundError is raised).  malformed:
the file exists but json.load of it, indexing its fields or base64-decoding
the salt raises — all of this happens before the try block, so the exception
propagates.  parsed: the decoded salt, the optional iterations field
(vault_data.get defaults to 600000) and the ciphertext. -/
inductive VFile : Type
  | missing
  | malformed
  | parsed (salt : String) (iterations : Option Nat) (data : String)

/-- In-memory state of the VaultManager: the decrypted secrets bundle and the
unlocked flag (constructor state: empty dict, locked). -/
structure VaultState where
  secrets : List (String × String)
  unlocked : Bool
deriving DecidableEq, Repr

/-- Exceptions unlock can raise: FileNotFoundError for a missing vault file,
and the jsonError family for a file whose envelope cannot be parsed. -/
inductive VaultErr : Type
  | fileNotFound
  | jsonError
deriving DecidableEq, Repr

/-- VaultManager.unlock (app/vault.py lines 38-69), parametrized by the
PBKDF2-HMAC-SHA256 derivation, Fernet decryption (none models InvalidToken or
any other exception inside the try block) and json.loads of the decrypted
bundle (none models a parse failure, which the same except clause catches).
Note the method has no early return for an already-unlocked manager: it
always re-reads the file and re-derives the key. -/
def unlock (kdf : String → String → Nat → String)
    (fernetDecrypt : String → String → Option String)
    (jsonLoads : String → Option (List (String × String)))
    (file : VFile) (st : VaultState) (master_password : String) :
    Except VaultErr (Bool × VaultState) :=
  match file with
  | .missing => .error .fileNotFound
  | .malformed => .error .jsonError
  | .parsed salt iterations data =>
      let key := kdf master_password salt (iterations.getD 600000)
      match fernetDecrypt key data with
      | none => .ok (false, st)
      | some decrypted =>
          match jsonLoads decrypted with
          | none => .ok (false, st)
          | some secrets => .ok (true, { secrets := secrets, unlocked := true })

/-- A Fernet cipher held by the EncryptionService, abstracted to its encrypt
and decrypt maps (a fixed random token stream is folded into enc). -/
structure Cipher where
  enc : String → String
  dec : String → String

/-- EncryptionService state (app/services/encryption.py): the optional cipher,
none until initialize is called after vault unlock. -/
structure EncryptionService where
  cipher : Option Cipher

/-- The RuntimeError raised when encrypt or decrypt is used before the cipher
is present. -/
inductive EncErr : Type
  | notInitialized
deriving DecidableEq, Repr

/-- EncryptionService.encrypt (app/services/encryption.py lines 26-31): an
empty plaintext short-circuits to the empty string before the cipher property
is touched; otherwise a missing cipher raises and a present cipher is applied. -/
def EncryptionService.encrypt (svc : EncryptionService) (plaintext : String) :
    Except EncErr String :=
  if plaintext = "" then .ok ""
  else
    match svc.cipher with
    | none => .error .notInitialized
    | some c => .ok (c.enc plaintext)

/-- EncryptionService.decrypt (app/services/encryption.py lines 33-38),
symmetric to encrypt. -/
def EncryptionService.decrypt (svc : EncryptionService) (ciphertext : String) :
    Except EncErr String :=
  if ciphertext = "" then .ok ""
  else
    match svc.cipher with
    | none => .error .notInitialized
    | some c => .ok (c.dec ciphertext)

/-- Distinctness of primary keys, maintained by the storage layer. -/
def NodupIds (db : DB) : Prop :=
  (db.members.map (fun m => m.id)).Nodup

instance (db : DB) : Decidable (NodupIds db) := by
  unfold NodupIds; infer_instance

/-- The spec's record invariant for one record: the assigned-worker reference
is set if and only if the status is ASSIGNED. -/
def MemberInv (m : Member) : Prop :=
  m.assigned_vetter_id ≠ none ↔ m.status = .ASSIGNED

instance (m : Member) : Decidable (MemberInv m) := by
  unfold MemberInv; infer_instance

/-- The spec's record invariant over a whole database. -/
def AssignInv (db : DB) : Prop :=
  ∀ m ∈ db.members, MemberInv m

instance (db : DB) : Decidable (AssignInv db) := by
  unfold AssignInv; infer_instance

/-- Projection of an auto-assignment outcome to the value the caller received:
some r when the call returned (r = assigned member id or none for
"no candidate"), none when it raised. -/
def resultAssigned (e : Except (ApiErr × DB) (Option Nat × Sess)) :
    Option (Option Nat) :=
  match e with
  | .ok (r, _) => some r
  | .error _ => none

/-! Concrete instantiations of the cryptographic parameters, used for
counterexamples and witnesses. -/

/-- Toy key derivation: the derived key is the password itself. -/
def kdf0 : String → String → Nat → String := fun p _ _ => p

/-- Toy Fernet decryption: succeeds exactly for the key "correct". -/
def fernetDecrypt0 : String → String → Option String :=
  fun key _ => if key = "correct" then some "bundle" else none

/-- Toy json.loads for the decrypted secrets bundle. -/
def jsonLoads0 : String → Option (List (String × String)) :=
  fun s => if s = "bundle" then some [("ENCRYPTION_KEY", "k")] else none

/-- Fixed-output stand-in for a SHA-256 hex digest (64 characters). -/
def sha64 : String → String := fun _ => String.mk (List.replicate 64 'a')

/-- C5 counterexample: the claim says a corrupted or truncated vault file
makes unlock return false rather than raise, but json.load of the file (and
the base64/field access around it) runs before the try block, so unlock
raises on a malformed file instead of returning false. -/
theorem c5_counterexample_corrupted_file_raises :
    unlock kdf0 fernetDecrypt0 jsonLoads0 .malformed ⟨[], false⟩ "pw" =
      .error .jsonError := rfl

/-- C5 (amended): unlock returns false — with the vault state unchanged, so
no partial secrets are retained — when authenticated decryption fails (wrong
password or tampered ciphertext) or when the decrypted bundle fails to parse;
a missing vault file raises the distinct FileNotFoundError; but a vault file
whose JSON envelope is malformed or truncated raises instead of returning
false. -/
theorem c5_unlock_failure_semantics (kdf : String → String → Nat → String)
    (fdec : String → String → Option String)
    (jload : String → Option (List (String × String)))
    (st : VaultState) (p : String) :
    (∀ salt its data, fdec (kdf p salt (its.getD 600000)) data = none →
      unlock kdf fdec jload (.parsed salt its data) st p = .ok (false, st)) ∧
    (∀ salt its data dec, fdec (kdf p salt (its.getD 600000)) data = some dec →
      jload dec = none →
      unlock kdf fdec jload (.parsed salt its data) st p = .ok (false, st)) ∧
    unlock kdf fdec jload .missing st p = .error .fileNotFound ∧
    unlock kdf fdec jload .malformed st p = .error .jsonError := by
  refine ⟨?_, ?_, rfl, rfl⟩
  · intro salt its data h
    simp [unlock, h]
  · intro salt its data dec h hj
    simp [unlock, h, hj]

/-- Closed witness for c5_unlock_failure_semantics: a wrong password on a
well-formed vault file yields ok false with the state unchanged. -/
theorem c5_unlock_failure_semantics_witness :
    unlock kdf0 fernetDecrypt0 jsonLoads0 (.parsed "salt" none "data")
      ⟨[], false⟩ "wrong" = .ok (false, ⟨[], false⟩) :=
  (c5_unlock_failure_semantics kdf0 fernetDecrypt0 jsonLoads0 ⟨[], false⟩
    "wrong").1 "salt" none "data" (by decide)

/-- C6 counterexample: the claim says that while the vault is already
unlocked, unlock returns true for every password argument; but unlock has no
already-unlocked short-circuit, so calling it with a wrong password while
unlocked returns false. -/
theorem c6_counterexample_unlock_while_unlocked :
    unlock kdf0 fernetDecrypt0 jsonLoads0 (.parsed "salt" none "data")
      ⟨[("ENCRYPTION_KEY", "k")], true⟩ "wrong" =
      .ok (false, ⟨[("ENCRYPTION_KEY", "k")], true⟩) := by
  simp [unlock, kdf0, fernetDecrypt0]

/-- C6 (amended): unlock never short-circuits; it re-reads the file and
re-derives the key on every call, returning true only when decryption and
parsing succeed.  Still, is_unlocked is monotone — no code path resets it —
and a failed call leaves the state (secrets and flag) exactly unchanged. -/
theorem c6_unlock_monotone (kdf : String → String → Nat → String)
    (fdec : String → String → Option String)
    (jload : String → Option (List (String × String)))
    (file : VFile) (st : VaultState) (p : String) (b : Bool) (st' : VaultState)
    (h : unlock kdf fdec jload file st p = .ok (b, st')) :
    (st.unlocked = true → st'.unlocked = true) ∧
    (b = false → st' = st) ∧
    (b = true → st'.unlocked = true) := by
  cases file with
  | missing => simp [unlock] at h
  | malformed => simp [unlock] at h
  | parsed salt its data =>
      simp only [unlock] at h
      split at h
      · injection h with h'
        injection h' with hb hst
        subst hb; subst hst
        exact ⟨fun hu => hu, fun _ => rfl, fun hc => by cases hc⟩
      · split at h
        · injection h with h'
          injection h' with hb hst
          subst hb; subst hst
          exact ⟨fun hu => hu, fun _ => rfl, fun hc => by cases hc⟩
        · injection h with h'
          injection h' with hb hst
          subst hb; subst hst
          exact ⟨fun _ => rfl, fun hc => absurd hc (by simp), fun _ => rfl⟩

/-- Closed witness for c6_unlock_monotone: a successful re-unlock ends with
the unlocked flag true. -/
theorem c6_unlock_monotone_witness :
    ({ secrets := [("ENCRYPTION_KEY", "k")], unlocked := true } : VaultState).unlocked
      = true :=
  (c6_unlock_monotone kdf0 fernetDecrypt0 jsonLoads0 (.parsed "salt" none "data")
    ⟨[], false⟩ "correct" true ⟨[("ENCRYPTION_KEY", "k")], true⟩
    (by simp [unlock, kdf0, fernetDecrypt0, jsonLoads0])).2.2 rfl

/-- C7: with an initialized encryption service whose cipher round-trips and
never produces an empty token for nonempty input (true of Fernet),
decrypt(encrypt(s)) = s for every string; and the empty string
short-circuits through both encrypt and decrypt without invoking the cipher
(it succeeds even on an uninitialized service). -/
theorem c7_encrypt_decrypt_roundtrip (c : Cipher)
    (hrt : ∀ p, c.dec (c.enc p) = p)
    (hne : ∀ p, p ≠ "" → c.enc p ≠ "") :
    (∀ s : String,
      (EncryptionService.encrypt ⟨some c⟩ s).bind (EncryptionService.decrypt ⟨some c⟩)
        = .ok s) ∧
    EncryptionService.encrypt ⟨none⟩ "" = .ok "" ∧
    EncryptionService.decrypt ⟨none⟩ "" = .ok "" := by
  refine ⟨?_, rfl, rfl⟩
  intro s
  by_cases hs : s = ""
  · subst hs
    simp [EncryptionService.encrypt, EncryptionService.decrypt, Except.bind]
  · simp [EncryptionService.encrypt, EncryptionService.decrypt, Except.bind,
      hs, hne s hs, hrt]

/-- Closed witness for c7_encrypt_decrypt_roundtrip at the identity cipher
and a concrete string. -/
theorem c7_encrypt_decrypt_roundtrip_witness :
    (EncryptionService.encrypt ⟨some ⟨id, id⟩⟩ "alice@example.com").bind
      (EncryptionService.decrypt ⟨some ⟨id, id⟩⟩) = .ok "alice@example.com" :=
  (c7_encrypt_decrypt_roundtrip ⟨id, id⟩ (fun _ => rfl) (fun _ h => h)).1
    "alice@example.com"

/-- C8 counterexample: the empty string and a whitespace-only string are
equal after lowercasing and trimming, yet their fingerprints differ — the
Python-falsy check runs before normalization, so a whitespace-only input is
hashed (fingerprint of the bare salt) while the empty input returns the
sentinel. -/
theorem c8_counterexample_whitespace_only :
    pyNormalize "" = pyNormalize " " ∧
    generate_blind_index sha64 "salt" (some "") ≠
      generate_blind_index sha64 "salt" (some " ") := by
  constructor
  · decide
  · decide

/-- C8 (amended): fingerprints of two nonempty inputs agree whenever the
inputs are equal after lowercasing and trimming; the fingerprint of a missing
value and of the empty string is the empty-string sentinel; the sentinel
never equals the fingerprint of a nonempty input (the digest has 64
characters, and a whitespace-only input is hashed, not sentineled); and a
submission whose email has the same blind index as a stored record — in
particular one differing only in case or surrounding whitespace from a
stored nonempty email — is rejected as a duplicate conflict. -/
theorem c8_blind_index_duplicates (sha256hex : String → String) (salt : String) :
    generate_blind_index sha256hex salt none = "" ∧
    generate_blind_index sha256hex salt (some "") = "" ∧
    (∀ e1 e2 : String, e1 ≠ "" → e2 ≠ "" → pyNormalize e1 = pyNormalize e2 →
      generate_blind_index sha256hex salt (some e1) =
        generate_blind_index sha256hex salt (some e2)) ∧
    ((∀ s, (sha256hex s).length = 64) → ∀ e : String, e ≠ "" →
      generate_blind_index sha256hex salt (some e) ≠ "") ∧
    (∀ (db : DB) (sched : List Bool) (newId : Nat) (now : Int)
      (fn ln e1 e2 : String) (m : Member), m ∈ db.members →
      m.email_blind_index = generate_blind_index sha256hex salt (some e1) →
      e1 ≠ "" → e2 ≠ "" → pyNormalize e1 = pyNormalize e2 →
      submit_application sha256hex salt ⟨db, db, sched⟩ newId now fn ln e2 =
        .error (.conflict, db)) := by
  refine ⟨rfl, rfl, ?_, ?_, ?_⟩
  · intro e1 e2 h1 h2 hn
    simp [generate_blind_index, h1, h2, hn]
  · intro hlen e he
    simp only [generate_blind_index, he, if_false]
    intro hcon
    have := hlen (pyNormalize e ++ salt)
    rw [hcon] at this
    simp at this
  · intro db sched newId now fn ln e1 e2 m hm hebi h1 h2 hn
    have hidx : generate_blind_index sha256hex salt (some e2) =
        generate_blind_index sha256hex salt (some e1) := by
      simp [generate_blind_index, h1, h2, hn]
    simp only [submit_application]
    cases hf : (DB.members db).find?
        (fun x => decide (x.email_blind_index =
          generate_blind_index sha256hex salt (some e2))) with
    | none =>
        exfalso
        rw [List.find?_eq_none] at hf
        exact hf m hm (by simp [hebi, hidx])
    | some x => rfl

/-- A stored member whose email blind index was computed from
"test@example.com". -/
def dupMember : Member :=
  { id := 1,
    first_name := "T",
    last_name := "U",
    email_blind_index := generate_blind_index sha64 "s" (some "test@example.com"),
    status := .PENDING,
    assigned_vetter_id := none,
    created_at := 0,
    updated_at := 0 }

/-- Closed witness for c8_blind_index_duplicates: resubmitting with the same
email in different casing and with surrounding whitespace is rejected as a
duplicate. -/
theorem c8_blind_index_duplicates_witness :
    submit_application sha64 "s"
      ⟨{ members := [dupMember], audit := [] },
       { members := [dupMember], audit := [] }, []⟩ 2 5 "A" "B"
      " Test@Example.com " =
      .error (.conflict, { members := [dupMember], audit := [] }) :=
  (c8_blind_index_duplicates sha64 "s").2.2.2.2
    { members := [dupMember], audit := [] } [] 2 5 "A" "B"
    "test@example.com" " Test@Example.com " dupMember (by simp)
    rfl (by decide) (by decide) (by decide)

/-- One pending member, the only record of the race database. -/
def raceMember : Member :=
  { id := 1,
    first_name := "R",
    last_name := "S",
    email_blind_index := "x",
    status := .PENDING,
    assigned_vetter_id := none,
    created_at := 100,
    updated_at := 100 }

/-- C9: with a single PENDING record and two workers whose request_next calls
interleave read-before-write (which the code permits: the selection and the
update are a plain read-then-write with no conditional claim), both workers
receive the same record — worker 10 and worker 20 both get member 1, the
stored row ends up assigned to the later committer, and two AUTO_ASSIGNED
audit entries are written — contradicting the requirement that exactly one
worker owns the record and the other receives "no candidate". -/
theorem c9_race_both_receive_member :
    request_next_race firstPendingMin 1000
      { members := [raceMember], audit := [] } 10 20 =
      (some 1, some 1,
        { members := [{ raceMember with
            status := .ASSIGNED,
            assigned_vetter_id := some 20,
            updated_at := 1000 }],
          audit := [autoAssignEntry 10 1, autoAssignEntry 20 1] }) := by
  decide


/-- Both commit outcomes: success keeps the working copy on both sides, a
failure surfaces the storage error with the last committed database. -/
theorem tryCommit_cases (s : Sess) :
    (∃ rest, tryCommit s = .ok ⟨s.working, s.working, rest⟩) ∨
    tryCommit s = .error (.storage, s.committed) := by
  unfold tryCommit
  cases s.sched with
  | nil => exact .inl ⟨[], rfl⟩
  | cons b rest =>
      cases b with
      | true => exact .inl ⟨rest, rfl⟩
      | false => exact .inr rfl

/-- Pointwise mutation by primary key preserves the assignment invariant when
the write always produces an invariant-compliant record. -/
theorem assignInv_updMember {db : DB} {mid : Nat} {f : Member → Member}
    (hf : ∀ m, MemberInv (f m)) (h : AssignInv db) :
    AssignInv (updMember db mid f) := by
  intro m hm
  simp only [updMember, List.mem_map] at hm
  obtain ⟨x, hx, rfl⟩ := hm
  by_cases hid : x.id = mid
  · simpa [hid] using hf x
  · simpa [hid] using h x hx

/-- A reset record satisfies the invariant (PENDING, no assignee). -/
theorem memberInv_reset (now : Int) (m : Member) :
    MemberInv (resetMember now m) := by
  simp [MemberInv, resetMember]

/-- An assigned record satisfies the invariant (ASSIGNED, an assignee). -/
theorem memberInv_assign (now : Int) (v : Nat) (m : Member) :
    MemberInv (assignMember now v m) := by
  simp [MemberInv, assignMember]

/-- The reclamation loop preserves the assignment invariant on both the
working and the committed database, in every outcome. -/
theorem reclaimLoop_assignInv (now : Int) :
    ∀ (stale : List Member) (s : Sess) (count : Nat),
      AssignInv s.working → AssignInv s.committed →
      (∀ n s', reclaimLoop now s count stale = .ok (n, s') →
        AssignInv s'.working ∧ AssignInv s'.committed) ∧
      (∀ err d, reclaimLoop now s count stale = .error (err, d) → AssignInv d)
  | [], s, count, hw, hc => by
      refine ⟨?_, ?_⟩
      · intro n s' h
        simp only [reclaimLoop, Except.ok.injEq, Prod.mk.injEq] at h
        obtain ⟨h1, h2⟩ := h
        subst h2
        exact ⟨hw, hc⟩
      · intro err d h
        simp only [reclaimLoop] at h
        simp at h
  | m :: rest, s, count, hw, hc => by
      have hw1 : AssignInv (updMember s.working m.id (resetMember now)) :=
        assignInv_updMember (memberInv_reset now) hw
      simp only [reclaimLoop, log_action]
      rcases tryCommit_cases { s with working :=
        { updMember s.working m.id (resetMember now) with
          audit := (updMember s.working m.id (resetMember now)).audit ++
            [⟨(reclaimEntry m).user_id, (reclaimEntry m).member_id,
              (reclaimEntry m).action, (reclaimEntry m).details⟩] } } with
        hok | herr
      · obtain ⟨rest', hok⟩ := hok
        simp only [hok]
        exact reclaimLoop_assignInv now rest _ (count + 1) hw1 hw1
      · simp only [herr]
        refine ⟨?_, ?_⟩
        · intro n s' h
          simp at h
        · intro err d h
          simp only [Except.error.injEq, Prod.mk.injEq] at h
          obtain ⟨h1, h2⟩ := h
          subst h2
          exact hc

/-- reclaim_stale_assignments preserves the assignment invariant in every
outcome. -/
theorem reclaim_assignInv (now : Int) (s : Sess)
    (hw : AssignInv s.working) (hc : AssignInv s.committed) :
    (∀ n s', reclaim_stale_assignments now s = .ok (n, s') →
      AssignInv s'.working ∧ AssignInv s'.committed) ∧
    (∀ err d, reclaim_stale_assignments now s = .error (err, d) →
      AssignInv d) := by
  have hloop := reclaimLoop_assignInv now
    (s.working.members.filter (isStale now)) s 0 hw hc
  cases hres : reclaimLoop now s 0 (s.working.members.filter (isStale now)) with
  | error e =>
      obtain ⟨e1, e2⟩ := e
      have hd := hloop.2 e1 e2 hres
      refine ⟨?_, ?_⟩
      · intro n s' h
        simp only [reclaim_stale_assignments, hres] at h
        simp at h
      · intro err d h
        simp only [reclaim_stale_assignments, hres, Except.error.injEq,
          Prod.mk.injEq] at h
        obtain ⟨h1, h2⟩ := h
        subst h2
        exact hd
  | ok p =>
      obtain ⟨cnt, s1⟩ := p
      have hs1 := hloop.1 cnt s1 hres
      by_cases hcnt : 0 < cnt
      · rcases tryCommit_cases s1 with ⟨rest', hok⟩ | herr
        · refine ⟨?_, ?_⟩
          · intro n s' h
            simp only [reclaim_stale_assignments, hres, if_pos hcnt, hok,
              Except.ok.injEq, Prod.mk.injEq] at h
            obtain ⟨h1, h2⟩ := h
            subst h2
            exact ⟨hs1.1, hs1.1⟩
          · intro err d h
            simp only [reclaim_stale_assignments, hres, if_pos hcnt, hok] at h
            simp at h
        · refine ⟨?_, ?_⟩
          · intro n s' h
            simp only [reclaim_stale_assignments, hres, if_pos hcnt, herr] at h
            simp at h
          · intro err d h
            simp only [reclaim_stale_assignments, hres, if_pos hcnt, herr,
              Except.error.injEq, Prod.mk.injEq] at h
            obtain ⟨h1, h2⟩ := h
            subst h2
            exact hs1.2
      · refine ⟨?_, ?_⟩
        · intro n s' h
          simp only [reclaim_stale_assignments, hres, if_neg hcnt,
            Except.ok.injEq, Prod.mk.injEq] at h
          obtain ⟨h1, h2⟩ := h
          subst h2
          exact hs1
        · intro err d h
          simp only [reclaim_stale_assignments, hres, if_neg hcnt] at h
          simp at h

/-- Both outcomes of log_action: on success both copies hold the working
database with the new row appended; on failure the last committed database is
surfaced unchanged. -/
theorem log_action_cases (s : Sess) (uid mid : Option Nat) (a dtl : String) :
    (∃ rest, log_action s uid mid a dtl =
      .ok ⟨{ s.working with audit := s.working.audit ++ [⟨uid, mid, a, dtl⟩] },
           { s.working with audit := s.working.audit ++ [⟨uid, mid, a, dtl⟩] },
           rest⟩) ∨
    log_action s uid mid a dtl = .error (.storage, s.committed) := by
  unfold log_action
  rcases tryCommit_cases { s with working :=
    { s.working with audit := s.working.audit ++ [⟨uid, mid, a, dtl⟩] } } with
    ⟨rest, hok⟩ | herr
  · exact .inl ⟨rest, hok⟩
  · exact .inr herr


/-- Characterization of a successful commit. -/
theorem tryCommit_ok {s s' : Sess} (h : tryCommit s = .ok s') :
    s'.working = s.working ∧ s'.committed = s.working := by
  rcases tryCommit_cases s with ⟨rest, hok⟩ | herr
  · rw [hok] at h
    injection h with h'
    subst h'
    exact ⟨rfl, rfl⟩
  · rw [herr] at h
    cases h

/-- Characterization of a failing commit. -/
theorem tryCommit_err {s : Sess} {err : ApiErr} {d : DB}
    (h : tryCommit s = .error (err, d)) : err = .storage ∧ d = s.committed := by
  rcases tryCommit_cases s with ⟨rest, hok⟩ | herr
  · rw [hok] at h
    cases h
  · rw [herr] at h
    injection h with h'
    injection h' with h1 h2
    exact ⟨h1.symm, h2.symm⟩

/-- Characterization of a successful log_action: both copies hold the old
working database with the row appended. -/
theorem log_action_ok {s s' : Sess} {uid mid : Option Nat} {a dtl : String}
    (h : log_action s uid mid a dtl = .ok s') :
    s'.working = { s.working with audit := s.working.audit ++ [⟨uid, mid, a, dtl⟩] } ∧
    s'.committed = s'.working := by
  unfold log_action at h
  have := tryCommit_ok h
  simp only at this
  exact ⟨this.1, this.2.trans this.1.symm⟩

/-- Characterization of a failing log_action: the transaction rolls back to
the last committed database. -/
theorem log_action_err {s : Sess} {uid mid : Option Nat} {a dtl : String}
    {err : ApiErr} {d : DB} (h : log_action s uid mid a dtl = .error (err, d)) :
    err = .storage ∧ d = s.committed := by
  unfold log_action at h
  have h2 := tryCommit_err h
  refine ⟨h2.1, ?_⟩
  rw [h2.2]

/-- The claim tail of auto-assignment preserves the assignment invariant in
every outcome. -/
theorem autoAssignClaim_assignInv (sel : List Member → Option Member)
    (now : Int) (v : Nat) (s2 : Sess)
    (hw : AssignInv s2.working) (hc : AssignInv s2.committed) :
    (∀ r s', autoAssignClaim sel now v s2 = .ok (r, s') →
      AssignInv s'.working ∧ AssignInv s'.committed) ∧
    (∀ err d, autoAssignClaim sel now v s2 = .error (err, d) →
      AssignInv d) := by
  constructor
  · intro r s' h
    simp only [autoAssignClaim] at h
    split at h
    · obtain ⟨h1, h2⟩ := Prod.mk.injEq .. ▸ (Except.ok.inj h)
      subst h2
      exact ⟨hw, hc⟩
    · rename_i m hsel
      split at h
      · cases h
      · rename_i s4 hlog
        split at h
        · cases h
        · rename_i s5 hcom
          injection h with h'
          obtain ⟨h1, h2⟩ := Prod.mk.inj h'
          subst h2
          have hup : AssignInv (updMember s2.working m.id (assignMember now v)) :=
            assignInv_updMember (memberInv_assign now v) hw
          have h4 := log_action_ok hlog
          have h5 := tryCommit_ok hcom
          have hmem4 : AssignInv s4.working := by
            rw [h4.1]
            intro x hx
            exact hup x hx
          constructor
          · rw [h5.1]
            exact hmem4
          · rw [h5.2]
            exact hmem4
  · intro err d h
    simp only [autoAssignClaim] at h
    split at h
    · cases h
    · rename_i m hsel
      split at h
      · rename_i e hlog
        obtain ⟨e1, e2⟩ := e
        injection h with h'
        obtain ⟨h1, h2⟩ := Prod.mk.inj h'
        subst h2
        subst h1
        have := log_action_err hlog
        simp only at this
        rw [this.2]
        exact hc
      · rename_i s4 hlog
        split at h
        · rename_i e hcom
          obtain ⟨e1, e2⟩ := e
          injection h with h'
          obtain ⟨h1, h2⟩ := Prod.mk.inj h'
          subst h2
          subst h1
          have h4 := log_action_ok hlog
          have := tryCommit_err hcom
          rw [this.2, h4.2, h4.1]
          intro x hx
          exact assignInv_updMember (memberInv_assign now v) hw x hx
        · cases h

/-- auto_assign_next_member preserves the assignment invariant in every
outcome. -/
theorem auto_assign_assignInv (sel : List Member → Option Member)
    (now : Int) (s : Sess) (v : Nat)
    (hw : AssignInv s.working) (hc : AssignInv s.committed) :
    (∀ r s', auto_assign_next_member sel now s v = .ok (r, s') →
      AssignInv s'.working ∧ AssignInv s'.committed) ∧
    (∀ err d, auto_assign_next_member sel now s v = .error (err, d) →
      AssignInv d) := by
  have hrec := reclaim_assignInv now s hw hc
  constructor
  · intro r s' h
    simp only [auto_assign_next_member] at h
    split at h
    · cases h
    · rename_i reclaimed s1 hres
      have hs1 := hrec.1 reclaimed s1 hres
      split at h
      · split at h
        · cases h
        · rename_i s2 hlog
          have h2 := log_action_ok hlog
          have hw2 : AssignInv s2.working := by
            rw [h2.1]
            intro x hx
            exact hs1.1 x hx
          have hc2 : AssignInv s2.committed := by
            rw [h2.2]
            exact hw2
          exact (autoAssignClaim_assignInv sel now v s2 hw2 hc2).1 r s' h
      · exact (autoAssignClaim_assignInv sel now v s1 hs1.1 hs1.2).1 r s' h
  · intro err d h
    simp only [auto_assign_next_member] at h
    split at h
    · rename_i e hres
      obtain ⟨e1, e2⟩ := e
      injection h with h'
      obtain ⟨h1, h2⟩ := Prod.mk.inj h'
      subst h2
      subst h1
      exact hrec.2 e1 e2 hres
    · rename_i reclaimed s1 hres
      have hs1 := hrec.1 reclaimed s1 hres
      split at h
      · split at h
        · rename_i e hlog
          obtain ⟨e1, e2⟩ := e
          injection h with h'
          obtain ⟨h1, h2⟩ := Prod.mk.inj h'
          subst h2
          subst h1
          have h2 := log_action_err hlog
          rw [h2.2]
          exact hs1.2
        · rename_i s2 hlog
          have h2 := log_action_ok hlog
          have hw2 : AssignInv s2.working := by
            rw [h2.1]
            intro x hx
            exact hs1.1 x hx
          have hc2 : AssignInv s2.committed := by
            rw [h2.2]
            exact hw2
          exact (autoAssignClaim_assignInv sel now v s2 hw2 hc2).2 err d h
      · exact (autoAssignClaim_assignInv sel now v s1 hs1.1 hs1.2).2 err d h

/-- submit_application preserves the assignment invariant in every outcome
(the created record is PENDING with no assignee). -/
theorem submit_assignInv (sha : String → String) (salt : String) (s : Sess)
    (newId : Nat) (now : Int) (fn ln e : String)
    (hw : AssignInv s.working) (hc : AssignInv s.committed) :
    (∀ r s', submit_application sha salt s newId now fn ln e = .ok (r, s') →
      AssignInv s'.working ∧ AssignInv s'.committed) ∧
    (∀ err d, submit_application sha salt s newId now fn ln e = .error (err, d) →
      AssignInv d) := by
  have hnewInv : AssignInv { s.working with
      members := s.working.members ++
        [newMember newId fn ln (generate_blind_index sha salt (some e)) now] } := by
    intro x hx
    simp only [List.mem_append, List.mem_singleton] at hx
    rcases hx with hx | hx
    · exact hw x hx
    · subst hx
      simp [MemberInv, newMember]
  constructor
  · intro r s' h
    simp only [submit_application] at h
    split at h
    · cases h
    · split at h
      · cases h
      · rename_i s2 hcom
        injection h with h'
        obtain ⟨h1, h2⟩ := Prod.mk.inj h'
        subst h2
        have h5 := tryCommit_ok hcom
        simp only at h5
        constructor
        · rw [h5.1]
          exact hnewInv
        · rw [h5.2]
          exact hnewInv
  · intro err d h
    simp only [submit_application] at h
    split at h
    · injection h with h'
      obtain ⟨h1, h2⟩ := Prod.mk.inj h'
      subst h2
      exact hc
    · split at h
      · rename_i e' hcom
        obtain ⟨e1, e2⟩ := e'
        injection h with h'
        obtain ⟨h1, h2⟩ := Prod.mk.inj h'
        subst h2
        subst h1
        have h5 := tryCommit_err hcom
        rw [h5.2]
        exact hc
      · cases h

/-- A member currently assigned to vetter 7. -/
def assignedMember7 : Member :=
  { id := 1,
    first_name := "A",
    last_name := "B",
    email_blind_index := "x",
    status := .ASSIGNED,
    assigned_vetter_id := some 7,
    created_at := 100,
    updated_at := 900 }

/-- The database holding just that member. -/
def assignedDB7 : DB := { members := [assignedMember7], audit := [] }

/-- Vetter 7. -/
def vetterUser7 : User := { id := 7, username := "v7", role := .VETTER }

/-- The database after vetter 7 moves the member to VETTED. -/
def vettedResultDB : DB :=
  { members := [{ assignedMember7 with status := .VETTED, updated_at := 1000 }],
    audit := [statusChangeEntry 7 1 .ASSIGNED .VETTED] }

/-- C2 counterexample: moving an ASSIGNED record to VETTED through
update_member_status leaves the assigned-worker reference set (the handler
never clears assigned_vetter_id), so the reachable final state violates
"assigned_worker is set iff status is ASSIGNED". -/
theorem c2_counterexample_vetted_keeps_worker :
    update_member_status firstPendingMin 1000 ⟨assignedDB7, assignedDB7, []⟩
      vetterUser7 1 (some .VETTED) =
      .ok ⟨vettedResultDB, vettedResultDB, []⟩ ∧
    ((findMember vettedResultDB 1).map
      (fun m => (m.status, m.assigned_vetter_id))) = some (.VETTED, some 7) ∧
    ¬ MemberInv { assignedMember7 with status := .VETTED, updated_at := 1000 } := by
  refine ⟨by rfl, by rfl, by decide⟩

/-- C2 (amended): record creation, auto-assignment and stale reclamation all
preserve the invariant "assigned_worker is set iff status is ASSIGNED" (on the
working and committed databases, in every outcome including rolled-back
storage failures); the invariant is NOT preserved by direct status updates,
which change status without touching the assigned-worker reference. -/
theorem c2_assign_invariant_preserved :
    (∀ (sha : String → String) (salt : String) (s : Sess) (newId : Nat)
      (now : Int) (fn ln e : String),
      AssignInv s.working → AssignInv s.committed →
      (∀ r s', submit_application sha salt s newId now fn ln e = .ok (r, s') →
        AssignInv s'.working ∧ AssignInv s'.committed) ∧
      (∀ err d, submit_application sha salt s newId now fn ln e = .error (err, d) →
        AssignInv d)) ∧
    (∀ (now : Int) (s : Sess), AssignInv s.working → AssignInv s.committed →
      (∀ n s', reclaim_stale_assignments now s = .ok (n, s') →
        AssignInv s'.working ∧ AssignInv s'.committed) ∧
      (∀ err d, reclaim_stale_assignments now s = .error (err, d) →
        AssignInv d)) ∧
    (∀ (sel : List Member → Option Member) (now : Int) (s : Sess) (v : Nat),
      AssignInv s.working → AssignInv s.committed →
      (∀ r s', auto_assign_next_member sel now s v = .ok (r, s') →
        AssignInv s'.working ∧ AssignInv s'.committed) ∧
      (∀ err d, auto_assign_next_member sel now s v = .error (err, d) →
        AssignInv d)) := by
  refine ⟨?_, ?_, ?_⟩
  · intro sha salt s newId now fn ln e hw hc
    exact submit_assignInv sha salt s newId now fn ln e hw hc
  · intro now s hw hc
    exact reclaim_assignInv now s hw hc
  · intro sel now s v hw hc
    exact auto_assign_assignInv sel now s v hw hc

/-- A stale assigned member (for the preservation witness). -/
def staleMember5 : Member :=
  { id := 3,
    first_name := "S",
    last_name := "T",
    email_blind_index := "z",
    status := .ASSIGNED,
    assigned_vetter_id := some 5,
    created_at := 0,
    updated_at := 0 }

/-- Closed witness for c2_assign_invariant_preserved: reclaiming a stale
assignment from a concrete invariant-satisfying database yields a database
still satisfying the invariant. -/
theorem c2_assign_invariant_preserved_witness :
    AssignInv ((⟨{ members := [staleMember5], audit := [] },
        { members := [staleMember5], audit := [] }, []⟩ : Sess)).working ∧
    ∀ n s', reclaim_stale_assignments (8 * 86400)
        ⟨{ members := [staleMember5], audit := [] },
         { members := [staleMember5], audit := [] }, []⟩ = .ok (n, s') →
      AssignInv s'.working ∧ AssignInv s'.committed :=
  ⟨by decide,
   (c2_assign_invariant_preserved.2.1 (8 * 86400)
      ⟨{ members := [staleMember5], audit := [] },
       { members := [staleMember5], audit := [] }, []⟩
      (by decide) (by decide)).1⟩

/-- One iteration of the reclamation loop as a database transformation: the
member is reset in place and its ASSIGNMENT_RECLAIMED row appended. -/
def reclaimStep (now : Int) (db : DB) (m : Member) : DB :=
  { updMember db m.id (resetMember now) with
    audit := db.audit ++ [reclaimEntry m] }

/-- The database produced by a fully successful reclamation run. -/
def reclaimedDB (now : Int) (db : DB) : DB :=
  (db.members.filter (isStale now)).foldl (reclaimStep now) db

/-- On an all-success schedule the reclamation loop folds reclaimStep over the
stale snapshot and returns the number of records visited. -/
theorem reclaimLoop_nil (now : Int) :
    ∀ (stale : List Member) (db : DB) (count : Nat),
      reclaimLoop now ⟨db, db, []⟩ count stale =
        .ok (count + stale.length,
          ⟨stale.foldl (reclaimStep now) db, stale.foldl (reclaimStep now) db, []⟩)
  | [], db, count => by
      simp [reclaimLoop]
  | m :: rest, db, count => by
      simp only [reclaimLoop, log_action, tryCommit, List.foldl_cons, List.length_cons]
      have ih := reclaimLoop_nil now rest (reclaimStep now db m) (count + 1)
      have harith : count + 1 + rest.length = count + (rest.length + 1) := by omega
      rw [harith] at ih
      exact ih

/-- On an all-success clean session reclaim_stale_assignments returns the
number of stale members and commits the folded database. -/
theorem reclaim_nil (now : Int) (db : DB) :
    reclaim_stale_assignments now ⟨db, db, []⟩ =
      .ok ((db.members.filter (isStale now)).length,
        ⟨reclaimedDB now db, reclaimedDB now db, []⟩) := by
  simp only [reclaim_stale_assignments]
  rw [reclaimLoop_nil now (db.members.filter (isStale now)) db 0]
  simp only [Nat.zero_add]
  by_cases hcnt : 0 < (db.members.filter (isStale now)).length
  · rw [if_pos hcnt]
    simp [tryCommit, reclaimedDB]
  · rw [if_neg hcnt]
    rfl

/-- The members table after one reclaim step. -/
theorem reclaimStep_members (now : Int) (db : DB) (m : Member) :
    (reclaimStep now db m).members =
      db.members.map (fun x => if x.id = m.id then resetMember now x else x) := rfl

/-- The audit table of the folded reclamation run: the original rows followed
by one ASSIGNMENT_RECLAIMED row per stale member, in order. -/
theorem reclaimFold_audit (now : Int) :
    ∀ (stale : List Member) (db : DB),
      (stale.foldl (reclaimStep now) db).audit = db.audit ++ stale.map reclaimEntry
  | [], db => by simp
  | m :: rest, db => by
      simp only [List.foldl_cons, List.map_cons]
      rw [reclaimFold_audit now rest]
      simp [reclaimStep]

/-- The members table of the folded reclamation run: a record is reset exactly
when some member of the stale snapshot carries its id. -/
theorem reclaimFold_members (now : Int) :
    ∀ (stale : List Member) (db : DB),
      (stale.foldl (reclaimStep now) db).members =
        db.members.map (fun x =>
          if stale.any (fun m => decide (x.id = m.id)) then resetMember now x else x)
  | [], db => by simp
  | m :: rest, db => by
      simp only [List.foldl_cons]
      rw [reclaimFold_members now rest, reclaimStep_members, List.map_map]
      apply List.map_congr_left
      intro x _
      simp only [Function.comp_apply, List.any_cons]
      split_ifs <;> simp_all [resetMember]
      rename_i hne hall hex
      obtain ⟨y, hy, hxy⟩ := hex
      exact absurd hxy (hall y hy)

/-- With distinct primary keys, two members of the table with the same id are
the same row. -/
theorem eq_of_mem_of_id_eq {db : DB} (h : NodupIds db) {a b : Member}
    (ha : a ∈ db.members) (hb : b ∈ db.members) (hid : a.id = b.id) : a = b :=
  List.inj_on_of_nodup_map h ha hb hid

/-- Under distinct primary keys, a member of the table carries the id of some
stale-snapshot member exactly when it is itself stale. -/
theorem any_stale_id (now : Int) (db : DB) (h : NodupIds db)
    (x : Member) (hx : x ∈ db.members) :
    ((db.members.filter (isStale now)).any fun m => decide (x.id = m.id)) =
      isStale now x := by
  by_cases hst : isStale now x = true
  · rw [hst, List.any_eq_true]
    exact ⟨x, List.mem_filter.mpr ⟨hx, hst⟩, by simp⟩
  · rw [Bool.not_eq_true] at hst
    rw [hst, List.any_eq_false]
    intro m hm
    obtain ⟨hmem, hstale⟩ := List.mem_filter.mp hm
    intro hdec
    have hid : x.id = m.id := of_decide_eq_true hdec
    have : x = m := eq_of_mem_of_id_eq h hx hmem hid
    subst this
    rw [hstale] at hst
    cases hst

/-- The database committed by a fully successful reclamation run, stated
pointwise: stale members reset, all others untouched, one audit row per stale
member appended in order. -/
def reclaimResultDB (now : Int) (db : DB) : DB :=
  { members := db.members.map (fun x => if isStale now x then resetMember now x else x),
    audit := db.audit ++ (db.members.filter (isStale now)).map reclaimEntry }

/-- Under distinct primary keys the folded reclamation run is exactly the
pointwise description. -/
theorem reclaimedDB_eq (now : Int) (db : DB) (h : NodupIds db) :
    reclaimedDB now db = reclaimResultDB now db := by
  have hmem : (reclaimedDB now db).members = (reclaimResultDB now db).members := by
    rw [reclaimedDB, reclaimFold_members, reclaimResultDB]
    apply List.map_congr_left
    intro x hx
    rw [any_stale_id now db h x hx]
  have haud : (reclaimedDB now db).audit = (reclaimResultDB now db).audit := by
    rw [reclaimedDB, reclaimFold_audit, reclaimResultDB]
  cases hdb : reclaimedDB now db
  cases hdb2 : reclaimResultDB now db
  simp_all

/-- C4: on a database with distinct primary keys, a successful
reclaim_stale_assignments run resets exactly the records that are ASSIGNED
with updated_at older than now minus 7 days — each such record becomes
PENDING with the assigned worker cleared — leaves every other record
unchanged, appends exactly one audit row per reclaimed record (actor null,
action ASSIGNMENT_RECLAIMED, subject the record, detail naming the previous
worker), and returns the number of records reclaimed. -/
theorem c4_reclaim_stale_correct (now : Int) (db : DB) (h : NodupIds db) :
    reclaim_stale_assignments now ⟨db, db, []⟩ =
      .ok ((db.members.filter (isStale now)).length,
        ⟨reclaimResultDB now db, reclaimResultDB now db, []⟩) ∧
    (∀ x, isStale now x = true ↔
      (x.status = .ASSIGNED ∧ x.updated_at < now - 7 * 86400)) ∧
    (∀ x, (resetMember now x).status = .PENDING ∧
      (resetMember now x).assigned_vetter_id = none ∧
      (resetMember now x).id = x.id) ∧
    (∀ m, (reclaimEntry m).user_id = none ∧
      (reclaimEntry m).action = "ASSIGNMENT_RECLAIMED" ∧
      (reclaimEntry m).member_id = some m.id ∧
      (reclaimEntry m).details =
        "Assignment reclaimed from vetter " ++ optStr m.assigned_vetter_id ++
          " after 7 days of inactivity") := by
  refine ⟨?_, ?_, ?_, ?_⟩
  · rw [reclaim_nil, reclaimedDB_eq now db h]
  · intro x
    simp [isStale, staleSeconds]
  · intro x
    exact ⟨rfl, rfl, rfl⟩
  · intro m
    exact ⟨rfl, rfl, rfl, rfl⟩

/-- Closed witness for c4_reclaim_stale_correct, the spec's Scenario B: one
record assigned 8 days ago is reclaimed — count 1, status PENDING, worker
cleared, exactly one ASSIGNMENT_RECLAIMED entry. -/
theorem c4_reclaim_stale_correct_witness :
    reclaim_stale_assignments (8 * 86400)
      ⟨{ members := [staleMember5], audit := [] },
       { members := [staleMember5], audit := [] }, []⟩ =
      .ok (1,
        ⟨reclaimResultDB (8 * 86400) { members := [staleMember5], audit := [] },
         reclaimResultDB (8 * 86400) { members := [staleMember5], audit := [] },
         []⟩) ∧
    reclaimResultDB (8 * 86400) { members := [staleMember5], audit := [] } =
      { members := [{ staleMember5 with
          status := .PENDING, assigned_vetter_id := none, updated_at := 8 * 86400 }],
        audit := [reclaimEntry staleMember5] } :=
  ⟨by
    have hc := (c4_reclaim_stale_correct (8 * 86400)
      { members := [staleMember5], audit := [] } (by decide)).1
    simpa using hc,
   by decide⟩

/-- firstPendingMin satisfies the query contract. -/
theorem selSpec_firstPendingMin : SelSpec firstPendingMin := by
  intro ms
  constructor
  · intro m hm
    have hm' : m ∈ (ms.filter fun x => decide (x.status = .PENDING)).argmin
        (fun x => x.created_at) := Option.mem_def.mpr hm
    have hmem := List.argmin_mem hm'
    obtain ⟨hms, hpend⟩ := List.mem_filter.mp hmem
    refine ⟨hms, of_decide_eq_true hpend, ?_⟩
    intro m' hm'mem hm'pend
    exact List.le_of_mem_argmin
      (List.mem_filter.mpr ⟨hm'mem, by simp [hm'pend]⟩) hm'
  · intro hnone m hmem hpend
    rw [firstPendingMin, List.argmin_eq_none, List.filter_eq_nil_iff] at hnone
    exact hnone m hmem (by simp [hpend])

/-- lastPendingMin also satisfies the query contract: the contract does not
constrain which of several equally old pending records is returned. -/
theorem selSpec_lastPendingMin : SelSpec lastPendingMin := by
  intro ms
  constructor
  · intro m hm
    have hm' : m ∈ (ms.reverse.filter fun x => decide (x.status = .PENDING)).argmin
        (fun x => x.created_at) := Option.mem_def.mpr hm
    have hmem := List.argmin_mem hm'
    obtain ⟨hms, hpend⟩ := List.mem_filter.mp hmem
    refine ⟨List.mem_reverse.mp hms, of_decide_eq_true hpend, ?_⟩
    intro m' hm'mem hm'pend
    exact List.le_of_mem_argmin
      (List.mem_filter.mpr ⟨List.mem_reverse.mpr hm'mem, by simp [hm'pend]⟩) hm'
  · intro hnone m hmem hpend
    rw [lastPendingMin, List.argmin_eq_none, List.filter_eq_nil_iff] at hnone
    exact hnone m (List.mem_reverse.mpr hmem) (by simp [hpend])

/-- Two pending members created at the same instant, ids 1 and 2. -/
def tieMember1 : Member :=
  { id := 1,
    first_name := "P",
    last_name := "Q",
    email_blind_index := "a",
    status := .PENDING,
    assigned_vetter_id := none,
    created_at := 100,
    updated_at := 100 }

/-- The id-2 twin of tieMember1. -/
def tieMember2 : Member :=
  { tieMember1 with id := 2, email_blind_index := "b" }

/-- The database with the creation-time tie. -/
def tieDB : DB := { members := [tieMember1, tieMember2], audit := [] }

/-- C3 counterexample (tie-break): the code's query orders only by creation
time, so a storage layer satisfying the query contract may return the
higher-id record among an exact creation-time tie; with two PENDING records
created at the same instant, auto-assignment under such a (contract-
satisfying) selector assigns record 2, not the lowest identifier 1. -/
theorem c3_counterexample_tiebreak :
    SelSpec lastPendingMin ∧
    resultAssigned (auto_assign_next_member lastPendingMin 1000
      ⟨tieDB, tieDB, []⟩ 9) = some (some 2) ∧
    tieMember1 ∈ tieDB.members ∧
    tieMember1.status = .PENDING ∧
    tieMember1.created_at = tieMember2.created_at ∧
    tieMember1.id < tieMember2.id :=
  ⟨selSpec_lastPendingMin, by decide, by decide, by decide, by decide, by decide⟩

/-- The database written by the claim tail when member mid is assigned:
the row updated in place plus one AUTO_ASSIGNED audit row. -/
def claimResultDB (now : Int) (vetter mid : Nat) (P : DB) : DB :=
  { updMember P mid (assignMember now vetter) with
    audit := P.audit ++ [autoAssignEntry vetter mid] }

/-- The database visible to the pending SELECT of a fully successful
auto-assign run: the reclaimed database, plus the STALE_CHECK summary row
when reclamation found work. -/
def preAssignDB (now : Int) (vetter : Nat) (db : DB) : DB :=
  if 0 < (db.members.filter (isStale now)).length then
    { reclaimedDB now db with
      audit := (reclaimedDB now db).audit ++
        [staleCheckEntry vetter (db.members.filter (isStale now)).length] }
  else reclaimedDB now db

/-- log_action on an all-success schedule. -/
theorem log_action_nil (c w : DB) (uid mid : Option Nat) (a dtl : String) :
    log_action ⟨c, w, []⟩ uid mid a dtl =
      .ok ⟨{ w with audit := w.audit ++ [⟨uid, mid, a, dtl⟩] },
           { w with audit := w.audit ++ [⟨uid, mid, a, dtl⟩] }, []⟩ := rfl

/-- The claim tail on an all-success schedule when the SELECT finds a row. -/
theorem autoAssignClaim_nil_some (sel : List Member → Option Member)
    (now : Int) (v : Nat) (c w : DB) (m : Member)
    (hm : sel w.members = some m) :
    autoAssignClaim sel now v ⟨c, w, []⟩ =
      .ok (some m.id,
        ⟨claimResultDB now v m.id w, claimResultDB now v m.id w, []⟩) := by
  simp only [autoAssignClaim]
  rw [hm]
  rfl

/-- The claim tail on an all-success schedule when no row is PENDING. -/
theorem autoAssignClaim_nil_none (sel : List Member → Option Member)
    (now : Int) (v : Nat) (c w : DB)
    (hm : sel w.members = none) :
    autoAssignClaim sel now v ⟨c, w, []⟩ = .ok (none, ⟨c, w, []⟩) := by
  simp only [autoAssignClaim]
  rw [hm]

/-- C3 (amended): for any selector satisfying the query contract, a fully
successful auto-assign run first performs reclamation, then selects a PENDING
record of the reclaimed database with minimal creation time (the tie among
equal creation times is left to the storage layer — the query requests no
identifier tie-break), sets that record's status to ASSIGNED and its worker
to the requester, and appends exactly one AUTO_ASSIGNED audit row (after the
per-record reclamation rows and the optional STALE_CHECK summary row); when
no PENDING record exists the call returns none without error and the session
is completely unchanged. -/
theorem c3_auto_assign_amended (sel : List Member → Option Member)
    (hsel : SelSpec sel) (now : Int) (db : DB) (vetter : Nat) :
    (sel (reclaimedDB now db).members = none →
      auto_assign_next_member sel now ⟨db, db, []⟩ vetter =
        .ok (none, ⟨db, db, []⟩) ∧
      (∀ m ∈ db.members, m.status ≠ .PENDING)) ∧
    (∀ m, sel (reclaimedDB now db).members = some m →
      m ∈ (reclaimedDB now db).members ∧ m.status = .PENDING ∧
      (∀ m' ∈ (reclaimedDB now db).members, m'.status = .PENDING →
        m.created_at ≤ m'.created_at) ∧
      auto_assign_next_member sel now ⟨db, db, []⟩ vetter =
        .ok (some m.id,
          ⟨claimResultDB now vetter m.id (preAssignDB now vetter db),
           claimResultDB now vetter m.id (preAssignDB now vetter db), []⟩)) ∧
    (∀ mid (P : DB),
      (claimResultDB now vetter mid P).members =
        P.members.map (fun x => if x.id = mid then assignMember now vetter x else x) ∧
      (claimResultDB now vetter mid P).audit =
        P.audit ++ [autoAssignEntry vetter mid]) ∧
    (∀ mid, (autoAssignEntry vetter mid).user_id = some vetter ∧
      (autoAssignEntry vetter mid).member_id = some mid ∧
      (autoAssignEntry vetter mid).action = "AUTO_ASSIGNED") ∧
    (∀ x, (assignMember now vetter x).status = .ASSIGNED ∧
      (assignMember now vetter x).assigned_vetter_id = some vetter ∧
      (assignMember now vetter x).id = x.id) := by
  have hrun := reclaim_nil now db
  refine ⟨?_, ?_, ?_, ?_, ?_⟩
  · intro hnone
    have hcnt : (db.members.filter (isStale now)).length = 0 := by
      by_contra hne
      have hpos : 0 < (db.members.filter (isStale now)).length :=
        Nat.pos_of_ne_zero hne
      obtain ⟨m0, hm0⟩ : ∃ m0, m0 ∈ db.members.filter (isStale now) := by
        cases hfil : db.members.filter (isStale now) with
        | nil => rw [hfil] at hpos; simp at hpos
        | cons a t => exact ⟨a, List.mem_cons_self a t⟩
      obtain ⟨hm0mem, hm0st⟩ := List.mem_filter.mp hm0
      have hmapped : resetMember now m0 ∈ (reclaimedDB now db).members := by
        rw [reclaimedDB, reclaimFold_members]
        refine List.mem_map.mpr ⟨m0, hm0mem, ?_⟩
        have hany : ((db.members.filter (isStale now)).any
            fun m => decide (m0.id = m.id)) = true := by
          rw [List.any_eq_true]
          exact ⟨m0, hm0, by simp⟩
        rw [hany]
        simp
      exact (hsel (reclaimedDB now db).members).2 hnone
        (resetMember now m0) hmapped (by simp [resetMember])
    have hfil : db.members.filter (isStale now) = [] :=
      List.length_eq_zero.mp hcnt
    have hR : reclaimedDB now db = db := by
      rw [reclaimedDB, hfil]
      rfl
    have hnone' : sel db.members = none := by rw [← hR]; exact hnone
    constructor
    · simp only [auto_assign_next_member, hrun, hcnt]
      rw [if_neg (by omega)]
      rw [hR]
      exact autoAssignClaim_nil_none sel now vetter db db hnone'
    · exact fun m hm hp => (hsel db.members).2 hnone' m hm hp
  · intro m hm
    have hprops := (hsel (reclaimedDB now db).members).1 m hm
    refine ⟨hprops.1, hprops.2.1, hprops.2.2, ?_⟩
    simp only [auto_assign_next_member, hrun]
    by_cases hpos : 0 < (db.members.filter (isStale now)).length
    · rw [if_pos hpos]
      rw [log_action_nil]
      rw [preAssignDB, if_pos hpos]
      exact autoAssignClaim_nil_some sel now vetter _ _ m hm
    · rw [if_neg hpos]
      rw [preAssignDB, if_neg hpos]
      exact autoAssignClaim_nil_some sel now vetter _ _ m hm
  · intro mid P
    exact ⟨rfl, rfl⟩
  · intro mid
    exact ⟨rfl, rfl, rfl⟩
  · intro x
    exact ⟨rfl, rfl, rfl⟩

/-- Closed witness for c3_auto_assign_amended: with two equally old pending
records, the first-row selector assigns record 1 and writes the AUTO_ASSIGNED
row. -/
theorem c3_auto_assign_amended_witness :
    auto_assign_next_member firstPendingMin 1000 ⟨tieDB, tieDB, []⟩ 9 =
      .ok (some 1,
        ⟨claimResultDB 1000 9 1 (preAssignDB 1000 9 tieDB),
         claimResultDB 1000 9 1 (preAssignDB 1000 9 tieDB), []⟩) :=
  ((c3_auto_assign_amended firstPendingMin selSpec_firstPendingMin 1000 tieDB
    9).2.1 tieMember1 (by decide)).2.2.2

/-- C10: deleting a member first writes a MEMBER_DELETED audit row for it
(committed immediately by log_action) and then bulk-deletes every audit row
whose subject is that member — including the row just written — so a fully
successful delete leaves the member gone and not a single audit row
referencing it, not even the record of the deletion itself; if the final
commit fails after log_action committed, the MEMBER_DELETED row is durable
while the member still exists, showing the entry is written first. -/
theorem c10_delete_erases_audit (db : DB) (user : User) (mid : Nat)
    (m : Member) (hfind : findMember db mid = some m) :
    delete_member ⟨db, db, []⟩ user mid =
      .ok ⟨{ members := db.members.filter (fun x => decide (¬ x.id = mid)),
             audit := (db.audit ++ [deleteEntry user.id m]).filter
               (fun a => decide (¬ a.member_id = some mid)) },
           { members := db.members.filter (fun x => decide (¬ x.id = mid)),
             audit := (db.audit ++ [deleteEntry user.id m]).filter
               (fun a => decide (¬ a.member_id = some mid)) }, []⟩ ∧
    (db.audit ++ [deleteEntry user.id m]).filter
        (fun a => decide (¬ a.member_id = some mid)) =
      db.audit.filter (fun a => decide (¬ a.member_id = some mid)) ∧
    (∀ a ∈ (db.audit ++ [deleteEntry user.id m]).filter
        (fun a => decide (¬ a.member_id = some mid)),
      ¬ a.member_id = some mid) ∧
    (deleteEntry user.id m).member_id = some m.id ∧
    (deleteEntry user.id m).action = "MEMBER_DELETED" ∧
    delete_member ⟨db, db, [true, false]⟩ user mid =
      .error (.storage, { db with audit := db.audit ++ [deleteEntry user.id m] }) ∧
    findMember { db with audit := db.audit ++ [deleteEntry user.id m] } mid =
      some m := by
  have hfind' : db.members.find? (fun x => decide (x.id = mid)) = some m := hfind
  have hp := List.find?_some hfind'
  have hid : m.id = mid := by simpa using hp
  refine ⟨?_, ?_, ?_, rfl, rfl, ?_, hfind⟩
  · simp only [delete_member, hfind, log_action_nil]
    rfl
  · rw [List.filter_append]
    have : [deleteEntry user.id m].filter
        (fun a => decide (¬ a.member_id = some mid)) = [] := by
      simp [deleteEntry, hid]
    rw [this, List.append_nil]
  · intro a ha
    have := (List.mem_filter.mp ha).2
    exact of_decide_eq_true this
  · simp only [delete_member, hfind]
    have hlog : log_action ⟨db, db, [true, false]⟩ (deleteEntry user.id m).user_id
        (deleteEntry user.id m).member_id (deleteEntry user.id m).action
        (deleteEntry user.id m).details =
        .ok ⟨{ db with audit := db.audit ++ [deleteEntry user.id m] },
             { db with audit := db.audit ++ [deleteEntry user.id m] },
             [false]⟩ := rfl
    rw [hlog]
    rfl

/-- An admin user. -/
def adminUser : User := { id := 99, username := "admin", role := .SUPER_ADMIN }

/-- The member to be deleted in the witness. -/
def delMember : Member :=
  { id := 1,
    first_name := "D",
    last_name := "E",
    email_blind_index := "w",
    status := .VETTED,
    assigned_vetter_id := some 7,
    created_at := 0,
    updated_at := 0 }

/-- A database with the member, one audit row about it and one unrelated row. -/
def delDB : DB :=
  { members := [delMember],
    audit := [⟨some 7, some 1, "VIEWED_PII", "earlier read"⟩,
              ⟨some 99, none, "SEARCHED_MEMBERS", "other"⟩] }

/-- Closed witness for c10_delete_erases_audit at a concrete database. -/
theorem c10_delete_erases_audit_witness :
    delete_member ⟨delDB, delDB, []⟩ adminUser 1 =
      .ok ⟨{ members := delDB.members.filter (fun x => decide (¬ x.id = 1)),
             audit := (delDB.audit ++ [deleteEntry adminUser.id delMember]).filter
               (fun a => decide (¬ a.member_id = some 1)) },
           { members := delDB.members.filter (fun x => decide (¬ x.id = 1)),
             audit := (delDB.audit ++ [deleteEntry adminUser.id delMember]).filter
               (fun a => decide (¬ a.member_id = some 1)) }, []⟩ :=
  (c10_delete_erases_audit delDB adminUser 1 delMember (by decide)).1

/-- Number of occurrences of one audit row in a log. -/
def countE (l : List AuditLog) (e : AuditLog) : Nat :=
  l.countP (fun a => decide (a = e))

/-- The database a caller can rely on after an operation: the final session's
committed copy on success, the rolled-back committed copy on a storage error. -/
def committedOf : Except (ApiErr × DB) Sess → DB
  | .ok s => s.committed
  | .error (_, d) => d

/-- Appending one row changes the count of a target row by one exactly when
the appended row is that row. -/
theorem countE_append (l : List AuditLog) (a e : AuditLog) :
    countE (l ++ [a]) e = countE l e + (if a = e then 1 else 0) := by
  simp [countE, List.countP_append, List.countP_cons]

/-- Audit rows with different action codes are different rows. -/
theorem ne_of_action_ne {a b : AuditLog} (h : ¬ a.action = b.action) :
    ¬ a = b := fun he => h (he ▸ rfl)

/-- An id-preserving pointwise write keeps primary keys distinct. -/
theorem nodup_updMember {d : DB} {mid' : Nat} {f : Member → Member}
    (hf : ∀ x, (f x).id = x.id) (h : NodupIds d) :
    NodupIds (updMember d mid' f) := by
  unfold NodupIds updMember at *
  simp only [List.map_map]
  have : ∀ x ∈ d.members,
      ((fun m => m.id) ∘ fun m => if m.id = mid' then f m else m) x =
        (fun m => m.id) x := by
    intro x _
    by_cases hx : x.id = mid'
    · simp [hx, hf]
    · simp [hx]
  rw [List.map_congr_left this]
  exact h

/-- Lookup by id through an id-preserving pointwise write. -/
theorem findMember_updMember_map (d : DB) (mid mid' : Nat)
    (f : Member → Member) (hf : ∀ x, (f x).id = x.id) :
    findMember (updMember d mid' f) mid =
      (findMember d mid).map (fun x => if x.id = mid' then f x else x) := by
  unfold findMember updMember
  simp only
  rw [List.find?_map]
  have hp : ((fun m => decide (m.id = mid)) ∘ fun m => if m.id = mid' then f m else m) =
      (fun m => decide (m.id = mid)) := by
    funext x
    by_cases hx : x.id = mid'
    · simp [Function.comp, hx, hf]
    · simp [Function.comp, hx]
  rw [hp]

/-- A write to a different primary key does not change what lookup by id
returns. -/
theorem findMember_updMember_other (d : DB) (mid mid' : Nat)
    (f : Member → Member) (hf : ∀ x, (f x).id = x.id) (hne : ¬ mid = mid') :
    findMember (updMember d mid' f) mid = findMember d mid := by
  rw [findMember_updMember_map d mid mid' f hf]
  cases hy : findMember d mid with
  | none => rfl
  | some y =>
      have hy' : d.members.find? (fun x => decide (x.id = mid)) = some y := hy
      have hyid : y.id = mid := by simpa using List.find?_some hy'
      have hyne : (if y.id = mid' then f y else y) = y :=
        if_neg (by rw [hyid]; exact hne)
      simp [hyne]

/-- Members of the table whose status differs from the status stored at mid
cannot carry the id mid (primary keys are distinct). -/
theorem id_ne_of_status_ne {d : DB} {mid : Nat} {st : MemberStatus}
    (hnodup : NodupIds d)
    (hP : (findMember d mid).map Member.status = some st)
    {m : Member} (hm : m ∈ d.members) (hst : ¬ m.status = st) :
    ¬ m.id = mid := by
  intro hid
  cases hy : findMember d mid with
  | none => rw [hy] at hP; cases hP
  | some y =>
      rw [hy] at hP
      have hyst : y.status = st := by simpa using hP
      have hymem : y ∈ d.members := List.mem_of_find?_eq_some hy
      have hy' : d.members.find? (fun x => decide (x.id = mid)) = some y := hy
      have hyid : y.id = mid := by simpa using List.find?_some hy'
      have : m = y := eq_of_mem_of_id_eq hnodup hm hymem (by rw [hid, hyid])
      subst this
      exact hst hyst

/-- The invariant carried through the tail of a status update: the record at
mid holds the new status, exactly one copy of the STATUS_CHANGED row is in
the log, and primary keys stay distinct. -/
def Pinv (mid : Nat) (st : MemberStatus) (E : AuditLog) (d : DB) : Prop :=
  (findMember d mid).map Member.status = some st ∧
  countE d.audit E = 1 ∧ NodupIds d

/-- Appending any row other than the STATUS_CHANGED row keeps Pinv. -/
theorem pinv_append {mid : Nat} {st : MemberStatus} {E : AuditLog} {d : DB}
    (a : AuditLog) (hne : ¬ a = E) (h : Pinv mid st E d) :
    Pinv mid st E { d with audit := d.audit ++ [a] } := by
  obtain ⟨h1, h2, h3⟩ := h
  refine ⟨h1, ?_, h3⟩
  rw [countE_append, if_neg hne, Nat.add_zero]
  exact h2

/-- An id-preserving write to a different primary key keeps Pinv. -/
theorem pinv_upd_other {mid : Nat} {st : MemberStatus} {E : AuditLog} {d : DB}
    {mid' : Nat} {f : Member → Member}
    (hf : ∀ x, (f x).id = x.id) (hne : ¬ mid = mid')
    (h : Pinv mid st E d) : Pinv mid st E (updMember d mid' f) := by
  obtain ⟨h1, h2, h3⟩ := h
  refine ⟨?_, h2, nodup_updMember hf h3⟩
  rw [findMember_updMember_other d mid mid' f hf hne]
  exact h1

/-- The reclamation loop keeps Pinv when no stale-snapshot member carries the
id of the updated record. -/
theorem reclaimLoop_Pinv (now : Int) (mid : Nat) (st : MemberStatus)
    (E : AuditLog) (hEact : E.action = "STATUS_CHANGED") :
    ∀ (stale : List Member) (s : Sess) (count : Nat),
      (∀ m ∈ stale, ¬ m.id = mid) →
      Pinv mid st E s.working → Pinv mid st E s.committed →
      (∀ n s', reclaimLoop now s count stale = .ok (n, s') →
        Pinv mid st E s'.working ∧ Pinv mid st E s'.committed) ∧
      (∀ err d, reclaimLoop now s count stale = .error (err, d) →
        Pinv mid st E d)
  | [], s, count, hids, hw, hc => by
      refine ⟨?_, ?_⟩
      · intro n s' h
        simp only [reclaimLoop, Except.ok.injEq, Prod.mk.injEq] at h
        obtain ⟨h1, h2⟩ := h
        subst h2
        exact ⟨hw, hc⟩
      · intro err d h
        simp only [reclaimLoop] at h
        simp at h
  | m :: rest, s, count, hids, hw, hc => by
      have hmne : ¬ mid = m.id := fun h => hids m (List.mem_cons_self m rest) h.symm
      have hreclne : ¬ reclaimEntry m = E := by
        apply ne_of_action_ne
        rw [hEact]
        simp [reclaimEntry]
      have hw1 : Pinv mid st E (updMember s.working m.id (resetMember now)) :=
        pinv_upd_other (fun x => rfl) hmne hw
      have hw2 : Pinv mid st E { updMember s.working m.id (resetMember now) with
          audit := (updMember s.working m.id (resetMember now)).audit ++
            [reclaimEntry m] } :=
        pinv_append (reclaimEntry m) hreclne hw1
      simp only [reclaimLoop, log_action]
      rcases tryCommit_cases { s with working :=
        { updMember s.working m.id (resetMember now) with
          audit := (updMember s.working m.id (resetMember now)).audit ++
            [⟨(reclaimEntry m).user_id, (reclaimEntry m).member_id,
              (reclaimEntry m).action, (reclaimEntry m).details⟩] } } with
        hok | herr
      · obtain ⟨rest', hok⟩ := hok
        simp only [hok]
        exact reclaimLoop_Pinv now mid st E hEact rest _ (count + 1)
          (fun x hx => hids x (List.mem_cons_of_mem m hx)) hw2 hw2
      · simp only [herr]
        refine ⟨?_, ?_⟩
        · intro n s' h
          simp at h
        · intro err d h
          simp only [Except.error.injEq, Prod.mk.injEq] at h
          obtain ⟨h1, h2⟩ := h
          subst h2
          exact hc

/-- reclaim_stale_assignments keeps Pinv when the updated record's new status
is not ASSIGNED (so the record itself is never part of the stale snapshot). -/
theorem reclaim_Pinv (now : Int) (mid : Nat) (st : MemberStatus)
    (E : AuditLog) (hEact : E.action = "STATUS_CHANGED")
    (hstA : ¬ st = .ASSIGNED) (s : Sess)
    (hw : Pinv mid st E s.working) (hc : Pinv mid st E s.committed) :
    (∀ n s', reclaim_stale_assignments now s = .ok (n, s') →
      Pinv mid st E s'.working ∧ Pinv mid st E s'.committed) ∧
    (∀ err d, reclaim_stale_assignments now s = .error (err, d) →
      Pinv mid st E d) := by
  have hids : ∀ m ∈ s.working.members.filter (isStale now), ¬ m.id = mid := by
    intro m hm
    obtain ⟨hmem, hstale⟩ := List.mem_filter.mp hm
    have hmA : m.status = .ASSIGNED := by
      have := (Bool.and_eq_true _ _).mp hstale
      exact of_decide_eq_true this.1
    exact id_ne_of_status_ne hw.2.2 hw.1 hmem
      (by rw [hmA]; exact fun h => hstA h.symm)
  have hloop := reclaimLoop_Pinv now mid st E hEact
    (s.working.members.filter (isStale now)) s 0 hids hw hc
  cases hres : reclaimLoop now s 0 (s.working.members.filter (isStale now)) with
  | error e =>
      obtain ⟨e1, e2⟩ := e
      have hd := hloop.2 e1 e2 hres
      refine ⟨?_, ?_⟩
      · intro n s' h
        simp only [reclaim_stale_assignments, hres] at h
        simp at h
      · intro err d h
        simp only [reclaim_stale_assignments, hres, Except.error.injEq,
          Prod.mk.injEq] at h
        obtain ⟨h1, h2⟩ := h
        subst h2
        exact hd
  | ok p =>
      obtain ⟨cnt, s1⟩ := p
      have hs1 := hloop.1 cnt s1 hres
      by_cases hcnt : 0 < cnt
      · rcases tryCommit_cases s1 with ⟨rest', hok⟩ | herr
        · refine ⟨?_, ?_⟩
          · intro n s' h
            simp only [reclaim_stale_assignments, hres, if_pos hcnt, hok,
              Except.ok.injEq, Prod.mk.injEq] at h
            obtain ⟨h1, h2⟩ := h
            subst h2
            exact ⟨hs1.1, hs1.1⟩
          · intro err d h
            simp only [reclaim_stale_assignments, hres, if_pos hcnt, hok] at h
            simp at h
        · refine ⟨?_, ?_⟩
          · intro n s' h
            simp only [reclaim_stale_assignments, hres, if_pos hcnt, herr] at h
            simp at h
          · intro err d h
            simp only [reclaim_stale_assignments, hres, if_pos hcnt, herr,
              Except.error.injEq, Prod.mk.injEq] at h
            obtain ⟨h1, h2⟩ := h
            subst h2
            exact hs1.2
      · refine ⟨?_, ?_⟩
        · intro n s' h
          simp only [reclaim_stale_assignments, hres, if_neg hcnt,
            Except.ok.injEq, Prod.mk.injEq] at h
          obtain ⟨h1, h2⟩ := h
          subst h2
          exact hs1
        · intro err d h
          simp only [reclaim_stale_assignments, hres, if_neg hcnt] at h
          simp at h

/-- The claim tail keeps Pinv when the updated record's new status is not
PENDING (so the SELECT can never return that record). -/
theorem autoAssignClaim_Pinv (sel : List Member → Option Member)
    (hsel : SelSpec sel) (now : Int) (v : Nat)
    (mid : Nat) (st : MemberStatus) (E : AuditLog)
    (hEact : E.action = "STATUS_CHANGED") (hstP : ¬ st = .PENDING) (s2 : Sess)
    (hw : Pinv mid st E s2.working) (hc : Pinv mid st E s2.committed) :
    (∀ r s', autoAssignClaim sel now v s2 = .ok (r, s') →
      Pinv mid st E s'.working ∧ Pinv mid st E s'.committed) ∧
    (∀ err d, autoAssignClaim sel now v s2 = .error (err, d) →
      Pinv mid st E d) := by
  have hassigned : ∀ m, sel s2.working.members = some m →
      Pinv mid st E (updMember s2.working m.id (assignMember now v)) := by
    intro m hm
    have hprops := (hsel s2.working.members).1 m hm
    have hne : ¬ m.id = mid :=
      id_ne_of_status_ne hw.2.2 hw.1 hprops.1
        (by rw [hprops.2.1]; exact fun h => hstP h.symm)
    exact pinv_upd_other (fun x => rfl) (fun h => hne h.symm) hw
  have hautone : ∀ m : Member, ¬ autoAssignEntry v m.id = E := by
    intro m
    apply ne_of_action_ne
    rw [hEact]
    simp [autoAssignEntry]
  constructor
  · intro r s' h
    simp only [autoAssignClaim] at h
    split at h
    · obtain ⟨h1, h2⟩ := Prod.mk.injEq .. ▸ (Except.ok.inj h)
      subst h2
      exact ⟨hw, hc⟩
    · rename_i m hsel2
      split at h
      · cases h
      · rename_i s4 hlog
        split at h
        · cases h
        · rename_i s5 hcom
          injection h with h'
          obtain ⟨h1, h2⟩ := Prod.mk.inj h'
          subst h2
          have hup := hassigned m hsel2
          have h4 := log_action_ok hlog
          have hmem4 : Pinv mid st E s4.working := by
            rw [h4.1]
            exact pinv_append (autoAssignEntry v m.id) (hautone m) hup
          have h5 := tryCommit_ok hcom
          constructor
          · rw [h5.1]
            exact hmem4
          · rw [h5.2]
            exact hmem4
  · intro err d h
    simp only [autoAssignClaim] at h
    split at h
    · cases h
    · rename_i m hsel2
      split at h
      · rename_i e hlog
        obtain ⟨e1, e2⟩ := e
        injection h with h'
        obtain ⟨h1, h2⟩ := Prod.mk.inj h'
        subst h2
        subst h1
        have h4 := log_action_err hlog
        simp only at h4
        rw [h4.2]
        exact hc
      · rename_i s4 hlog
        split at h
        · rename_i e hcom
          obtain ⟨e1, e2⟩ := e
          injection h with h'
          obtain ⟨h1, h2⟩ := Prod.mk.inj h'
          subst h2
          subst h1
          have h4 := log_action_ok hlog
          have h5 := tryCommit_err hcom
          rw [h5.2, h4.2, h4.1]
          exact pinv_append (autoAssignEntry v m.id) (hautone m)
            (hassigned m hsel2)
        · cases h

/-- auto_assign_next_member keeps Pinv when the updated record's new status is
neither PENDING nor ASSIGNED (so neither reclamation nor the SELECT can touch
that record). -/
theorem auto_assign_Pinv (sel : List Member → Option Member)
    (hsel : SelSpec sel) (now : Int) (v : Nat)
    (mid : Nat) (st : MemberStatus) (E : AuditLog)
    (hEact : E.action = "STATUS_CHANGED") (hstP : ¬ st = .PENDING)
    (hstA : ¬ st = .ASSIGNED) (s : Sess)
    (hw : Pinv mid st E s.working) (hc : Pinv mid st E s.committed) :
    (∀ r s', auto_assign_next_member sel now s v = .ok (r, s') →
      Pinv mid st E s'.working ∧ Pinv mid st E s'.committed) ∧
    (∀ err d, auto_assign_next_member sel now s v = .error (err, d) →
      Pinv mid st E d) := by
  have hrec := reclaim_Pinv now mid st E hEact hstA s hw hc
  have hscne : ∀ n : Nat, ¬ staleCheckEntry v n = E := by
    intro n
    apply ne_of_action_ne
    rw [hEact]
    simp [staleCheckEntry]
  constructor
  · intro r s' h
    simp only [auto_assign_next_member] at h
    split at h
    · cases h
    · rename_i reclaimed s1 hres
      have hs1 := hrec.1 reclaimed s1 hres
      split at h
      · split at h
        · cases h
        · rename_i s2 hlog
          have h2 := log_action_ok hlog
          have hw2 : Pinv mid st E s2.working := by
            rw [h2.1]
            exact pinv_append (staleCheckEntry v reclaimed) (hscne reclaimed)
              hs1.1
          have hc2 : Pinv mid st E s2.committed := by
            rw [h2.2]
            exact hw2
          exact (autoAssignClaim_Pinv sel hsel now v mid st E hEact hstP s2
            hw2 hc2).1 r s' h
      · exact (autoAssignClaim_Pinv sel hsel now v mid st E hEact hstP s1
          hs1.1 hs1.2).1 r s' h
  · intro err d h
    simp only [auto_assign_next_member] at h
    split at h
    · rename_i e hres
      obtain ⟨e1, e2⟩ := e
      injection h with h'
      obtain ⟨h1, h2⟩ := Prod.mk.inj h'
      subst h2
      subst h1
      exact hrec.2 e1 e2 hres
    · rename_i reclaimed s1 hres
      have hs1 := hrec.1 reclaimed s1 hres
      split at h
      · split at h
        · rename_i e hlog
          obtain ⟨e1, e2⟩ := e
          injection h with h'
          obtain ⟨h1, h2⟩ := Prod.mk.inj h'
          subst h2
          subst h1
          have h2 := log_action_err hlog
          rw [h2.2]
          exact hs1.2
        · rename_i s2 hlog
          have h2 := log_action_ok hlog
          have hw2 : Pinv mid st E s2.working := by
            rw [h2.1]
            exact pinv_append (staleCheckEntry v reclaimed) (hscne reclaimed)
              hs1.1
          have hc2 : Pinv mid st E s2.committed := by
            rw [h2.2]
            exact hw2
          exact (autoAssignClaim_Pinv sel hsel now v mid st E hEact hstP s2
            hw2 hc2).2 err d h
      · exact (autoAssignClaim_Pinv sel hsel now v mid st E hEact hstP s1
          hs1.1 hs1.2).2 err d h

/-- Outcomes of a status update on a clean session: every successful run
commits a database satisfying Pinv (new status stored, exactly one
STATUS_CHANGED row); every failing run leaves either the untouched original
database or a Pinv database (when the failure happened after log_action's
commit). -/
theorem update_status_Pinv (sel : List Member → Option Member)
    (hsel : SelSpec sel) (now : Int) (db : DB) (sched : List Bool)
    (user : User) (mid : Nat) (st : MemberStatus) (m0 : Member)
    (hnodup : NodupIds db) (hfind : findMember db mid = some m0)
    (hfresh : countE db.audit (statusChangeEntry user.id mid m0.status st) = 0) :
    (∀ s', update_member_status sel now ⟨db, db, sched⟩ user mid (some st) =
        .ok s' →
      Pinv mid st (statusChangeEntry user.id mid m0.status st) s'.committed) ∧
    (∀ err d, update_member_status sel now ⟨db, db, sched⟩ user mid (some st) =
        .error (err, d) →
      d = db ∨ Pinv mid st (statusChangeEntry user.id mid m0.status st) d) := by
  have hEact : (statusChangeEntry user.id mid m0.status st).action =
    "STATUS_CHANGED" := rfl
  have hm0id : m0.id = mid := by
    have hfind' : db.members.find? (fun x => decide (x.id = mid)) = some m0 :=
      hfind
    simpa using List.find?_some hfind'
  have hPw2 : Pinv mid st (statusChangeEntry user.id mid m0.status st)
      { updMember db mid (fun x => { x with status := st, updated_at := now }) with
        audit := (updMember db mid
          (fun x => { x with status := st, updated_at := now })).audit ++
          [statusChangeEntry user.id mid m0.status st] } := by
    refine ⟨?_, ?_, ?_⟩
    · have : findMember (updMember db mid
          (fun x => { x with status := st, updated_at := now })) mid =
          (findMember db mid).map
            (fun x => if x.id = mid then
              { x with status := st, updated_at := now } else x) :=
        findMember_updMember_map db mid mid _ (fun x => rfl)
      rw [show findMember { updMember db mid
          (fun x => { x with status := st, updated_at := now }) with
          audit := (updMember db mid
            (fun x => { x with status := st, updated_at := now })).audit ++
            [statusChangeEntry user.id mid m0.status st] } mid =
          findMember (updMember db mid
            (fun x => { x with status := st, updated_at := now })) mid from rfl]
      rw [this, hfind]
      simp [hm0id]
    · rw [show ({ updMember db mid
          (fun x => { x with status := st, updated_at := now }) with
          audit := (updMember db mid
            (fun x => { x with status := st, updated_at := now })).audit ++
            [statusChangeEntry user.id mid m0.status st] } : DB).audit =
          db.audit ++ [statusChangeEntry user.id mid m0.status st] from rfl]
      rw [countE_append, if_pos rfl, hfresh]
    · exact nodup_updMember (fun x => rfl) hnodup
  constructor
  · intro s' h
    simp only [update_member_status, hfind] at h
    by_cases hacc : check_member_access m0 user
    · rw [if_pos hacc] at h
      split at h
      · simp at h
      · rename_i s2 hlog
        have h4 := log_action_ok hlog
        have hw2 : Pinv mid st (statusChangeEntry user.id mid m0.status st)
            s2.working := by
          rw [h4.1]
          exact hPw2
        have hc2 : Pinv mid st (statusChangeEntry user.id mid m0.status st)
            s2.committed := by
          rw [h4.2]
          exact hw2
        by_cases hcond : user.role = .VETTER ∧ (st = .VETTED ∨ st = .REJECTED)
        · obtain ⟨hrole, hterm⟩ := hcond
          have hstP : ¬ st = .PENDING := by
            rcases hterm with h' | h' <;> simp [h']
          have hstA : ¬ st = .ASSIGNED := by
            rcases hterm with h' | h' <;> simp [h']
          have hauto := auto_assign_Pinv sel hsel now user.id mid st
            (statusChangeEntry user.id mid m0.status st) hEact hstP hstA s2
            hw2 hc2
          rw [if_pos ⟨hrole, hterm⟩] at h
          cases hauto2 : auto_assign_next_member sel now s2 user.id with
          | error e =>
              simp only [hauto2] at h
              simp at h
          | ok p =>
              obtain ⟨r, s3⟩ := p
              simp only [hauto2] at h
              have hps3 := hauto.1 r s3 hauto2
              have h5 := tryCommit_ok h
              rw [h5.2]
              exact hps3.1
        · rw [if_neg hcond] at h
          have h5 := tryCommit_ok h
          rw [h5.2]
          exact hw2
    · rw [if_neg hacc] at h
      simp at h
  · intro err d h
    simp only [update_member_status, hfind] at h
    by_cases hacc : check_member_access m0 user
    · rw [if_pos hacc] at h
      split at h
      · rename_i e hlog
        obtain ⟨e1, e2⟩ := e
        injection h with h'
        obtain ⟨h1, h2⟩ := Prod.mk.inj h'
        subst h2
        subst h1
        have h4 := log_action_err hlog
        exact .inl h4.2
      · rename_i s2 hlog
        have h4 := log_action_ok hlog
        have hw2 : Pinv mid st (statusChangeEntry user.id mid m0.status st)
            s2.working := by
          rw [h4.1]
          exact hPw2
        have hc2 : Pinv mid st (statusChangeEntry user.id mid m0.status st)
            s2.committed := by
          rw [h4.2]
          exact hw2
        by_cases hcond : user.role = .VETTER ∧ (st = .VETTED ∨ st = .REJECTED)
        · obtain ⟨hrole, hterm⟩ := hcond
          have hstP : ¬ st = .PENDING := by
            rcases hterm with h' | h' <;> simp [h']
          have hstA : ¬ st = .ASSIGNED := by
            rcases hterm with h' | h' <;> simp [h']
          have hauto := auto_assign_Pinv sel hsel now user.id mid st
            (statusChangeEntry user.id mid m0.status st) hEact hstP hstA s2
            hw2 hc2
          rw [if_pos ⟨hrole, hterm⟩] at h
          cases hauto2 : auto_assign_next_member sel now s2 user.id with
          | error e =>
              obtain ⟨e1, e2⟩ := e
              simp only [hauto2] at h
              injection h with h'
              obtain ⟨h1, h2⟩ := Prod.mk.inj h'
              subst h2
              exact .inr (hauto.2 e1 e2 hauto2)
          | ok p =>
              obtain ⟨r, s3⟩ := p
              simp only [hauto2] at h
              have hps3 := hauto.1 r s3 hauto2
              have h5 := tryCommit_err h
              rw [h5.2]
              exact .inr hps3.2
        · rw [if_neg hcond] at h
          have h5 := tryCommit_err h
          rw [h5.2]
          exact .inr hc2
    · rw [if_neg hacc] at h
      injection h with h'
      obtain ⟨h1, h2⟩ := Prod.mk.inj h'
      subst h2
      exact .inl rfl

/-- C1: for a workflow transition (update_member_status on a record whose
status actually changes, with the STATUS_CHANGED row fresh), the final
durable database is either the untouched original (the transaction rolled
back before the first commit) or one holding the new status together with
exactly one STATUS_CHANGED row — and in every outcome the new status is
durable if and only if exactly one copy of its audit row is durable: the
state change and its audit entry commit or roll back together.  For a
sensitive PII read (get_member), a successful call appends exactly one
VIEWED_PII row and changes no member, and a failed call leaves the database
untouched. -/
theorem c1_audit_transactional :
    (∀ (sel : List Member → Option Member), SelSpec sel →
      ∀ (now : Int) (db : DB) (sched : List Bool) (user : User) (mid : Nat)
        (st : MemberStatus) (m0 : Member) (D : DB),
        NodupIds db →
        findMember db mid = some m0 →
        ¬ m0.status = st →
        countE db.audit (statusChangeEntry user.id mid m0.status st) = 0 →
        committedOf (update_member_status sel now ⟨db, db, sched⟩ user mid
          (some st)) = D →
        (D = db ∨
          ((findMember D mid).map Member.status = some st ∧
            countE D.audit (statusChangeEntry user.id mid m0.status st) = 1)) ∧
        ((findMember D mid).map Member.status = some st ↔
          countE D.audit (statusChangeEntry user.id mid m0.status st) = 1)) ∧
    (∀ (db : DB) (sched : List Bool) (user : User) (mid : Nat),
      (∀ m s', get_member ⟨db, db, sched⟩ user mid = .ok (m, s') →
        s'.committed = { db with audit := db.audit ++ [viewPIIEntry user mid] } ∧
        s'.committed.members = db.members) ∧
      (∀ err d, get_member ⟨db, db, sched⟩ user mid = .error (err, d) →
        d = db)) := by
  constructor
  · intro sel hsel now db sched user mid st m0 D hnodup hfind hst hfresh hD
    have hout := update_status_Pinv sel hsel now db sched user mid st m0
      hnodup hfind hfresh
    have hdisj : D = db ∨
        ((findMember D mid).map Member.status = some st ∧
          countE D.audit (statusChangeEntry user.id mid m0.status st) = 1) := by
      cases hrun : update_member_status sel now ⟨db, db, sched⟩ user mid
        (some st) with
      | ok s' =>
          have hp := hout.1 s' hrun
          have hDval : D = s'.committed := by
            rw [← hD, hrun]
            rfl
          right
          rw [hDval]
          exact ⟨hp.1, hp.2.1⟩
      | error e =>
          obtain ⟨e1, e2⟩ := e
          have hp := hout.2 e1 e2 hrun
          have hDval : D = e2 := by
            rw [← hD, hrun]
            rfl
          rcases hp with hdb | hp
          · exact .inl (hDval.trans hdb)
          · right
            rw [hDval]
            exact ⟨hp.1, hp.2.1⟩
    refine ⟨hdisj, ?_⟩
    rcases hdisj with hdb | ⟨hstat, hcnt⟩
    · subst hdb
      constructor
      · intro hs
        rw [hfind] at hs
        simp only [Option.map_some'] at hs
        exact absurd (Option.some.inj hs) hst
      · intro hc
        rw [hfresh] at hc
        exact absurd hc (by simp)
    · exact ⟨fun _ => hcnt, fun _ => hstat⟩
  · intro db sched user mid
    constructor
    · intro m s' h
      simp only [get_member] at h
      split at h
      · simp at h
      · rename_i member hfindeq
        split at h
        · split at h
          · simp at h
          · rename_i s1 hlog
            injection h with h'
            obtain ⟨h1, h2⟩ := Prod.mk.inj h'
            subst h2
            have h4 := log_action_ok hlog
            constructor
            · rw [h4.2, h4.1]
            · rw [h4.2, h4.1]
        · simp at h
    · intro err d h
      simp only [get_member] at h
      split at h
      · injection h with h'
        obtain ⟨h1, h2⟩ := Prod.mk.inj h'
        exact h2.symm
      · rename_i member hfindeq
        split at h
        · split at h
          · rename_i e hlog
            obtain ⟨e1, e2⟩ := e
            injection h with h'
            obtain ⟨h1, h2⟩ := Prod.mk.inj h'
            subst h2
            exact (log_action_err hlog).2
          · simp at h
        · injection h with h'
          obtain ⟨h1, h2⟩ := Prod.mk.inj h'
          exact h2.symm

/-- Closed witness for c1_audit_transactional: vetter 7 completes record 1
(ASSIGNED to VETTED) on an all-success schedule; the committed database holds
the new status and exactly one STATUS_CHANGED row. -/
theorem c1_audit_transactional_witness :
    (vettedResultDB = assignedDB7 ∨
      ((findMember vettedResultDB 1).map Member.status = some .VETTED ∧
        countE vettedResultDB.audit
          (statusChangeEntry 7 1 .ASSIGNED .VETTED) = 1)) ∧
    ((findMember vettedResultDB 1).map Member.status = some .VETTED ↔
      countE vettedResultDB.audit
        (statusChangeEntry 7 1 .ASSIGNED .VETTED) = 1) :=
  c1_audit_transactional.1 firstPendingMin selSpec_firstPendingMin 1000
    assignedDB7 [] vetterUser7 1 .VETTED assignedMember7 vettedResultDB
    (by decide) (by decide) (by decide) (by decide) (by decide)
